import Mathlib

/-! # plane-system: the vendored `libsoccptp` example fixture

A shallow embedding of `src/vendor/libsoccptp/include/socc_examples_fixture.h`
and of `socc_examples_log::assert_socc` from `socc_examples_log.h`.

Conventions of the embedding:

* a `char`/`uint8_t` is a `Nat`, reduced `% 256` when it is stored in a `uint8_t`;
  a `uint16_t` is a `Nat`, reduced `% 65536` when it is stored; an `int` is an `Int`;
* a `const char *` argument is the list of bytes found at the pointer; the byte
  read past the end of that list is the terminating NUL (`c_at`);
* a `new[]` allocation has indeterminate contents (`operator_new` takes them as
  an argument) and a store outside the allocation is undefined behaviour, which
  the embedding reports as `none`;
* the transport (`socc_ptp`) is external: its replies are given by an oracle that
  is indexed by the number of the call, and every call is recorded on a trace;
* `exit(EXIT_FAILURE)` ends a run with `Outcome.exited`.
-/

namespace Socc

/-! ## `socc_examples_ptpstring` -/

/-- The class `socc_examples_ptpstring`: the `bytes` buffer and its `uint16_t bytes_size`. -/
structure socc_examples_ptpstring where
  bytes : List Nat
  bytes_size : Nat
deriving DecidableEq, Repr

/-- The C function `strlen`, which `std::string ascii(c)` uses for `ascii.size()`:
the number of bytes before the first NUL. -/
def strlen (c : List Nat) : Nat :=
  (c.takeWhile (fun b => b != 0)).length

/-- The read `c[i]` of a NUL-terminated buffer: past the listed bytes stands the terminator. -/
def c_at (c : List Nat) (i : Nat) : Nat :=
  c.getD i 0

/-- The allocation `new uint8_t[n]`: `n` bytes of indeterminate content `garbage`. -/
def operator_new (garbage : Nat → Nat) (n : Nat) : List Nat :=
  (List.range n).map (fun i => garbage i % 256)

/-- The store `bytes[i] = v` into a `uint8_t` array; outside the allocation it is
undefined behaviour (`none`). -/
def store (bytes : List Nat) (i v : Nat) : Option (List Nat) :=
  if i < bytes.length then some (bytes.set i (v % 256)) else none

/-- The loop `for (int i = 0; i < ascii.size() + 1; i++)` of the constructors, with `n`
iterations left to run from index `i`:
`bytes[1 + i * 2] = c[i]; bytes[1 + i * 2 + 1] = 0;`. -/
def fill_loop (c : List Nat) : Nat → Nat → List Nat → Option (List Nat)
  | 0, _, bytes => some bytes
  | n + 1, i, bytes =>
    match store bytes (1 + i * 2) (c_at c i) with
    | none => none
    | some b1 =>
      match store b1 (1 + i * 2 + 1) 0 with
      | none => none
      | some b2 => fill_loop c n (i + 1) b2

/-- The constructor `socc_examples_ptpstring(const char *c)`. -/
def socc_examples_ptpstring.ctor (garbage : Nat → Nat) (c : List Nat) :
    Option socc_examples_ptpstring :=
  let size := strlen c
  let bytes_size := (1 + (size + 1) * 2) % 65536
  let bytes := operator_new garbage bytes_size
  match store bytes 0 size with
  | none => none
  | some b0 =>
    match fill_loop c (size + 1) 0 b0 with
    | none => none
    | some b => some ⟨b, bytes_size⟩

/-- The decoder of the wire string, in the words of the specification: read the count
byte `N`, take the low byte of each of the first `N` UTF-16LE code units, drop the
terminator unit. -/
def ptpstring_decode (bytes : List Nat) : List Nat :=
  match bytes with
  | [] => []
  | n :: units => (List.range n).map (fun i => units.getD (2 * i) 0)

/-- The wire layout of the code units: every character widened to a little-endian
16-bit unit. Used to state what `fill_loop` leaves in the buffer. -/
def utf16le_units : List Nat → List Nat
  | [] => []
  | ch :: rest => (ch % 256) :: 0 :: utf16le_units rest

/-! ## The transport, the trace and `assert_socc` -/

/-- A buffer that `ptp.receive` allocates and hands out through its `void **data`
argument: its address and the bytes found there. -/
structure Buffer where
  handle : Nat
  bytes : List Nat
deriving DecidableEq, Repr

/-- One call of the fixture into the transport `socc_ptp` (`ports_ptp.h`), with the
arguments that the fixture chooses. -/
inductive Call where
  | send (code : Nat) (parameters : List Nat) (data : Option (List Nat))
  | receive (code : Nat) (parameters : List Nat)
  | wait_event
  | dispose_data (data : Option Buffer)
deriving DecidableEq, Repr

/-- What one `ptp.send` leaves behind: its return value and `response.code`. -/
structure SendReply where
  ret : Int
  code : Nat
deriving DecidableEq, Repr

/-- What one `ptp.receive` leaves behind: its return value, `response.code`, the
pointer stored in `*data` (`none` is `NULL`) and `size`. -/
structure ReceiveReply where
  ret : Int
  code : Nat
  data : Option Buffer
  size : Nat
deriving DecidableEq, Repr

/-- What one `ptp.wait_event` leaves behind: its return value and `event.code`. -/
structure EventReply where
  ret : Int
  code : Nat
deriving DecidableEq, Repr

/-- How a fixture operation ends: it returns to its caller, the process ends in
`exit(status)`, or the behaviour is undefined (a read through `NULL` or past a buffer). -/
inductive Outcome (α : Type) where
  | returned (a : α)
  | exited (status : Nat)
  | undefined
deriving DecidableEq, Repr

/-- A run of a fixture operation: the transport calls it made, in order, and how it ended. -/
structure Run (α : Type) where
  trace : List Call
  outcome : Outcome α
deriving DecidableEq, Repr

/-- The run `r` preceded by the transport calls `pre`. -/
def Run.after {α : Type} (pre : List Call) (r : Run α) : Run α :=
  ⟨pre ++ r.trace, r.outcome⟩

/-- The value of `EXIT_FAILURE` in `<stdlib.h>`. -/
def EXIT_FAILURE : Nat := 1

/-- The method `socc_examples_log::assert_socc(what, expect, actual)`: it returns when the
two are equal and calls `exit(EXIT_FAILURE)` otherwise (the messages are not modelled). -/
def assert_socc {T : Type} [DecidableEq T] (expect actual : T) : Outcome Unit :=
  if expect = actual then Outcome.returned () else Outcome.exited EXIT_FAILURE

/-- Whether a call on the trace is a `ptp.receive`. -/
def Call.is_receive : Call → Bool
  | Call.receive _ _ => true
  | _ => false

/-- The method `socc_examples_fixture::OpenSession(session_id)`. -/
def OpenSession (reply : SendReply) (session_id : Nat) : Run Int :=
  let trace := [Call.send 0x1002 [session_id] none]
  match assert_socc 0x2001 reply.code with
  | Outcome.returned _ => ⟨trace, Outcome.returned reply.ret⟩
  | Outcome.exited s => ⟨trace, Outcome.exited s⟩
  | Outcome.undefined => ⟨trace, Outcome.undefined⟩

/-- One record of the property array; `IsEnable` and `CurrentValue` are the members the
fixture reads. -/
structure SDIDevicePropInfoDataset where
  DevicePropertyCode : Nat
  IsEnable : Nat
  CurrentValue : Int
deriving DecidableEq, Repr

/-- The class `SDIDevicePropInfoDatasetArray` of `parser.h`, as the records it holds. -/
abbrev SDIDevicePropInfoDatasetArray := List SDIDevicePropInfoDataset

/-- Modelled from the spec: `parser.h`, which declares `SDIDevicePropInfoDatasetArray::get`,
is not among the sources. The lookup is keyed by property code and returns the first
matching record, or none. -/
def SDIDevicePropInfoDatasetArray.get (array : SDIDevicePropInfoDatasetArray) (code : Nat) :
    Option SDIDevicePropInfoDataset :=
  array.find? (fun d => d.DevicePropertyCode == code)

/-- The method `SDIO_GetAllExtDevicePropInfo(array)`; it returns `ret` and the pointer
stored in `*array`. The constructor `SDIDevicePropInfoDatasetArray(data)` of `parser.h`
is the argument `parse`. -/
def SDIO_GetAllExtDevicePropInfo (parse : Option Buffer → SDIDevicePropInfoDatasetArray)
    (reply : ReceiveReply) : Run (Int × Option SDIDevicePropInfoDatasetArray) :=
  let t1 := [Call.receive 0x96F6 []]
  match assert_socc 0x2001 reply.code with
  | Outcome.exited s => ⟨t1, Outcome.exited s⟩
  | Outcome.undefined => ⟨t1, Outcome.undefined⟩
  | Outcome.returned _ =>
    ⟨t1 ++ [Call.dispose_data reply.data], Outcome.returned (reply.ret, some (parse reply.data))⟩

/-- The read `*version` of a `uint16_t` at the start of a buffer (little-endian host). -/
def read_u16 (bytes : List Nat) : Option Nat :=
  match bytes with
  | lo :: hi :: _ => some (lo % 256 + 256 * (hi % 256))
  | _ => none

/-- The method `SDIO_GetExtDeviceInfo(initiator_version, actual_initiator_version)`;
`want_actual` says that the out-pointer is not `NULL`; it returns `ret` and the value
stored in `*actual_initiator_version`. -/
def SDIO_GetExtDeviceInfo (reply : ReceiveReply) (initiator_version : Nat)
    (want_actual : Bool) : Run (Int × Option Nat) :=
  let t1 := [Call.receive 0x96FD [initiator_version % 65536]]
  match assert_socc 0x2001 reply.code with
  | Outcome.exited s => ⟨t1, Outcome.exited s⟩
  | Outcome.undefined => ⟨t1, Outcome.undefined⟩
  | Outcome.returned _ =>
    if want_actual then
      match reply.data with
      | none => ⟨t1, Outcome.undefined⟩
      | some b =>
        match read_u16 b.bytes with
        | none => ⟨t1, Outcome.undefined⟩
        | some v =>
          ⟨t1 ++ [Call.dispose_data reply.data], Outcome.returned (reply.ret, some v)⟩
    else ⟨t1 ++ [Call.dispose_data reply.data], Outcome.returned (reply.ret, none)⟩

/-- The loop `while (count > 0)` of `wait_for_IsEnable`, entered with the local
variables `count` and `dataset`, before the call number `n`; after the loop the
function returns `dataset`. A returned dataset stands for the record the pointer
referred to when `array->get(code)` produced it. -/
def wait_for_IsEnable_loop (parse : Option Buffer → SDIDevicePropInfoDatasetArray)
    (ptp : Nat → ReceiveReply) (code expect : Nat) :
    Nat → Int → Nat → Option SDIDevicePropInfoDataset →
      Option (Run (Option SDIDevicePropInfoDataset))
  | 0, _, _, _ => none
  | fuel + 1, count, n, dataset =>
    if count > 0 then
      let r := SDIO_GetAllExtDevicePropInfo parse (ptp n)
      match r.outcome with
      | Outcome.exited s => some ⟨r.trace, Outcome.exited s⟩
      | Outcome.undefined => some ⟨r.trace, Outcome.undefined⟩
      | Outcome.returned (ret, array) =>
        match assert_socc 0 ret with
        | Outcome.exited s => some ⟨r.trace, Outcome.exited s⟩
        | Outcome.undefined => some ⟨r.trace, Outcome.undefined⟩
        | Outcome.returned _ =>
          match array with
          | none =>
            (wait_for_IsEnable_loop parse ptp code expect fuel (count - 1) (n + 1)
              dataset).map (Run.after r.trace)
          | some array =>
            match array.get code with
            | none =>
              (wait_for_IsEnable_loop parse ptp code expect fuel (count - 1) (n + 1)
                none).map (Run.after r.trace)
            | some d =>
              if d.IsEnable = expect then some ⟨r.trace, Outcome.returned (some d)⟩
              else
                (wait_for_IsEnable_loop parse ptp code expect fuel (count - 1) (n + 1)
                  (some d)).map (Run.after r.trace)
    else some ⟨[], Outcome.returned dataset⟩

/-- The method `wait_for_IsEnable(code, expect, count)`. -/
def wait_for_IsEnable (parse : Option Buffer → SDIDevicePropInfoDatasetArray)
    (ptp : Nat → ReceiveReply) (code expect : Nat) (count : Int) (fuel : Nat) :
    Option (Run (Option SDIDevicePropInfoDataset)) :=
  wait_for_IsEnable_loop parse ptp code expect fuel count 0 none

/-- The loop `while (count > 0)` of `wait_for_CurrentValue`, entered with the local
variable `count` before the call number `n`; after the loop the function returns 0
(the local `dataset` only decides whether a warning is logged). -/
def wait_for_CurrentValue_loop (parse : Option Buffer → SDIDevicePropInfoDatasetArray)
    (ptp : Nat → ReceiveReply) (code : Nat) (expect : Int) :
    Nat → Int → Nat → Option (Run Int)
  | 0, _, _ => none
  | fuel + 1, count, n =>
    if count > 0 then
      let r := SDIO_GetAllExtDevicePropInfo parse (ptp n)
      match r.outcome with
      | Outcome.exited s => some ⟨r.trace, Outcome.exited s⟩
      | Outcome.undefined => some ⟨r.trace, Outcome.undefined⟩
      | Outcome.returned (ret, array) =>
        if ret < 0 then some ⟨r.trace, Outcome.returned ret⟩
        else
          match array with
          | none =>
            (wait_for_CurrentValue_loop parse ptp code expect fuel (count - 1)
              (n + 1)).map (Run.after r.trace)
          | some array =>
            match array.get code with
            | none =>
              (wait_for_CurrentValue_loop parse ptp code expect fuel (count - 1)
                (n + 1)).map (Run.after r.trace)
            | some d =>
              if d.CurrentValue = expect then some ⟨r.trace, Outcome.returned 0⟩
              else
                (wait_for_CurrentValue_loop parse ptp code expect fuel (count - 1)
                  (n + 1)).map (Run.after r.trace)
    else some ⟨[], Outcome.returned 0⟩

/-- The method `wait_for_CurrentValue(code, expect, count)`. -/
def wait_for_CurrentValue (parse : Option Buffer → SDIDevicePropInfoDatasetArray)
    (ptp : Nat → ReceiveReply) (code : Nat) (expect : Int) (count : Int) (fuel : Nat) :
    Option (Run Int) :=
  wait_for_CurrentValue_loop parse ptp code expect fuel count 0

/-- The loop `while (escape == false)` of `wait_event`, before the call number `n`.
`TIMEOUT` is the constant `SOCC_ERROR_USB_TIMEOUT`, which `socc_ptp.h` defines. -/
def wait_event_loop (TIMEOUT : Int) (ptp : Nat → EventReply) (code : Nat) :
    Nat → Nat → Option (Run Unit)
  | 0, _ => none
  | fuel + 1, n =>
    let event := ptp n
    if event.ret = TIMEOUT then
      (wait_event_loop TIMEOUT ptp code fuel (n + 1)).map (Run.after [Call.wait_event])
    else if event.code = code then some ⟨[Call.wait_event], Outcome.returned ()⟩
    else
      match assert_socc 0 event.ret with
      | Outcome.exited s => some ⟨[Call.wait_event], Outcome.exited s⟩
      | Outcome.undefined => some ⟨[Call.wait_event], Outcome.undefined⟩
      | Outcome.returned _ =>
        (wait_event_loop TIMEOUT ptp code fuel (n + 1)).map (Run.after [Call.wait_event])

/-- The method `wait_event(code)`. -/
def wait_event (TIMEOUT : Int) (ptp : Nat → EventReply) (code : Nat) (fuel : Nat) :
    Option (Run Unit) :=
  wait_event_loop TIMEOUT ptp code fuel 0

/-- The event stream that delivers the listed replies in order and then keeps
reporting `rest`. -/
def event_stream (replies : List EventReply) (rest : EventReply) : Nat → EventReply :=
  fun n => replies.getD n rest

/-- The loop `for (int i = 0; i < ascii.size() + 1; i++)` of the constructor
`socc_examples_ptpstring(const char *c, size_t length)`, with `n` iterations left to run
from index `i`. Here `c` is the memory found at the pointer, which need not hold a
terminator: the read `c[i]` past the listed bytes is undefined behaviour (`none`). -/
def fill_loop_len (c : List Nat) : Nat → Nat → List Nat → Option (List Nat)
  | 0, _, bytes => some bytes
  | n + 1, i, bytes =>
    match c.get? i with
    | none => none
    | some ch =>
      match store bytes (1 + i * 2) ch with
      | none => none
      | some b1 =>
        match store b1 (1 + i * 2 + 1) 0 with
        | none => none
        | some b2 => fill_loop_len c n (i + 1) b2

/-- The constructor `socc_examples_ptpstring(const char *c, size_t length)`;
`std::string ascii(c, length)` reads the first `length` bytes at `c`. -/
def socc_examples_ptpstring.ctor_len (garbage : Nat → Nat) (c : List Nat) (length : Nat) :
    Option socc_examples_ptpstring :=
  if length ≤ c.length then
    let size := length
    let bytes_size := (1 + (size + 1) * 2) % 65536
    let bytes := operator_new garbage bytes_size
    match store bytes 0 size with
    | none => none
    | some b0 =>
      match fill_loop_len c (size + 1) 0 b0 with
      | none => none
      | some b => some ⟨b, bytes_size⟩
  else none

/-- The method `SDIO_SetExtDevicePropValue(code, ptpstring)`: one `send` of opcode 0x96FA
with the `bytes_size` bytes of the encoded string as payload. -/
def SDIO_SetExtDevicePropValue (reply : SendReply) (code : Nat)
    (ptpstring : socc_examples_ptpstring) : Run Int :=
  let trace := [Call.send 0x96FA [code % 65536]
    (some (ptpstring.bytes.take ptpstring.bytes_size))]
  match assert_socc 0x2001 reply.code with
  | Outcome.returned _ => ⟨trace, Outcome.returned reply.ret⟩
  | Outcome.exited s => ⟨trace, Outcome.exited s⟩
  | Outcome.undefined => ⟨trace, Outcome.undefined⟩

/-- The method `SDIO_SetExtDevicePropValue_str(code, str)`; `memory` is what lies at
`str.data()` and `length` is `str.length()`. -/
def SDIO_SetExtDevicePropValue_str (garbage : Nat → Nat) (reply : SendReply) (code : Nat)
    (memory : List Nat) (length : Nat) : Run Int :=
  match socc_examples_ptpstring.ctor_len garbage memory length with
  | none => ⟨[], Outcome.undefined⟩
  | some ptpstring => SDIO_SetExtDevicePropValue reply code ptpstring

/-! ## `wait_for_InitiatorVersion` and `get_CurrentValue` -/

/-- The version that a reply to `GetExtDeviceInfo` echoes: the `uint16_t` at the start of
the buffer it hands out, when there is one. -/
def ReceiveReply.echoed_version (reply : ReceiveReply) : Option Nat :=
  match reply.data with
  | some b => read_u16 b.bytes
  | none => none

/-- The end of `wait_for_InitiatorVersion`:
`log.assert_socc("InitiatorVersion", (uint16_t)expect, actual); return 0;`. -/
def wait_for_InitiatorVersion_finish (expect actual : Nat) : Run Int :=
  match assert_socc expect actual with
  | Outcome.returned _ => ⟨[], Outcome.returned 0⟩
  | Outcome.exited s => ⟨[], Outcome.exited s⟩
  | Outcome.undefined => ⟨[], Outcome.undefined⟩

/-- The loop `while (retry_count > 0)` of `wait_for_InitiatorVersion`, entered with the
local variables `retry_count` and `actual`, before the call number `n`, followed by
the final assertion and `return 0`. `expect` is a `uint16_t`. -/
def wait_for_InitiatorVersion_loop (ptp : Nat → ReceiveReply) (expect : Nat) :
    Nat → Int → Nat → Nat → Option (Run Int)
  | 0, _, _, _ => none
  | fuel + 1, retry_count, n, actual =>
    if retry_count > 0 then
      let r := SDIO_GetExtDeviceInfo (ptp n) expect true
      match r.outcome with
      | Outcome.exited s => some ⟨r.trace, Outcome.exited s⟩
      | Outcome.undefined => some ⟨r.trace, Outcome.undefined⟩
      | Outcome.returned (ret, written) =>
        let actual1 :=
          match written with
          | some v => v
          | none => 65535 - expect
        if ret < 0 then some ⟨r.trace, Outcome.returned ret⟩
        else if expect = actual1 then
          some (Run.after r.trace (wait_for_InitiatorVersion_finish expect actual1))
        else
          (wait_for_InitiatorVersion_loop ptp expect fuel (retry_count - 1) (n + 1)
            actual1).map (Run.after r.trace)
    else some (wait_for_InitiatorVersion_finish expect actual)

/-- The method `wait_for_InitiatorVersion(expect, retry_count)`. The local `actual` is
declared without an initial value: `stale` is what the variable holds on entry. -/
def wait_for_InitiatorVersion (stale : Nat) (ptp : Nat → ReceiveReply) (expect : Nat)
    (retry_count : Int) (fuel : Nat) : Option (Run Int) :=
  wait_for_InitiatorVersion_loop ptp (expect % 65536) fuel retry_count 0 (stale % 65536)

/-- The loop `while (count > 0)` of `get_CurrentValue`, entered with the local variable
`count` before the call number `n`; after the loop the function returns `CurrentValue`,
which is `NULL` unless the loop was left by `break`. The value returned by
`SDIO_GetAllExtDevicePropInfo` is not looked at. -/
def get_CurrentValue_loop (parse : Option Buffer → SDIDevicePropInfoDatasetArray)
    (ptp : Nat → ReceiveReply) (code : Nat) :
    Nat → Int → Nat → Option (Run (Option Int))
  | 0, _, _ => none
  | fuel + 1, count, n =>
    if count > 0 then
      let r := SDIO_GetAllExtDevicePropInfo parse (ptp n)
      match r.outcome with
      | Outcome.exited s => some ⟨r.trace, Outcome.exited s⟩
      | Outcome.undefined => some ⟨r.trace, Outcome.undefined⟩
      | Outcome.returned (_, array) =>
        match array with
        | none =>
          (get_CurrentValue_loop parse ptp code fuel (count - 1) (n + 1)).map
            (Run.after r.trace)
        | some array =>
          match array.get code with
          | none =>
            (get_CurrentValue_loop parse ptp code fuel (count - 1) (n + 1)).map
              (Run.after r.trace)
          | some d => some ⟨r.trace, Outcome.returned (some d.CurrentValue)⟩
    else some ⟨[], Outcome.returned none⟩

/-- The method `get_CurrentValue(code, count)`. -/
def get_CurrentValue (parse : Option Buffer → SDIDevicePropInfoDatasetArray)
    (ptp : Nat → ReceiveReply) (code : Nat) (count : Int) (fuel : Nat) :
    Option (Run (Option Int)) :=
  get_CurrentValue_loop parse ptp code fuel count 0

/-! ## `milisleep` -/

/-- The result of an `int` operation whose mathematical value is `x`, with overflow
wrapping modulo `2^32`. -/
def wrap_int32 (x : Int) : Int :=
  (x + 2147483648) % 4294967296 - 2147483648

/-- The `struct timespec` of `<time.h>`. -/
structure timespec where
  tv_sec : Int
  tv_nsec : Int
deriving DecidableEq, Repr

/-- The method `milisleep(msec)`: the request `req` that it hands to `nanosleep`.
`msec` is a `uint16_t`, promoted to `int` in both expressions; `/` and `%` truncate. -/
def milisleep (msec : Nat) : timespec :=
  let m : Int := ((msec % 65536 : Nat) : Int)
  { tv_nsec := Int.tmod (wrap_int32 (wrap_int32 (m * 1000) * 1000)) 1000000000
    tv_sec := Int.tdiv m 1000 }

end Socc

/-! # Theorems -/

namespace Socc

/-! ## The string encoder: the loop and the layout -/

theorem store_eq_some {bytes : List Nat} {i : Nat} (v : Nat) (h : i < bytes.length) :
    store bytes i v = some (bytes.set i (v % 256)) := by
  simp [store, h]

/-- The loop writes the units of `c[i..i+n)` and leaves every other byte alone. -/
theorem fill_loop_spec (c : List Nat) :
    ∀ (n i : Nat) (bytes : List Nat), 1 + 2 * (i + n) ≤ bytes.length →
      ∃ b, fill_loop c n i bytes = some b ∧ b.length = bytes.length ∧
        (∀ j, j < 1 + 2 * i → b[j]? = bytes[j]?) ∧
        (∀ j, 1 + 2 * (i + n) ≤ j → b[j]? = bytes[j]?) ∧
        (∀ k, i ≤ k → k < i + n →
          b[1 + 2 * k]? = some (c_at c k % 256) ∧ b[2 + 2 * k]? = some 0) := by
  intro n
  induction n with
  | zero =>
    intro i bytes _
    exact ⟨bytes, rfl, rfl, fun _ _ => rfl, fun _ _ => rfl, fun k h1 h2 => by omega⟩
  | succ n ih =>
    intro i bytes hlen
    have h1 : 1 + i * 2 < bytes.length := by omega
    have h2 : 1 + i * 2 + 1 < (bytes.set (1 + i * 2) (c_at c i % 256)).length := by
      rw [List.length_set]; omega
    obtain ⟨b, hb, hbl, hlo, hhi, hmid⟩ :=
      ih (i + 1) ((bytes.set (1 + i * 2) (c_at c i % 256)).set (1 + i * 2 + 1) (0 % 256))
        (by simp only [List.length_set]; omega)
    refine ⟨b, ?_, ?_, ?_, ?_, ?_⟩
    · simp only [fill_loop, store_eq_some _ h1, store_eq_some _ h2, hb]
    · simpa only [List.length_set] using hbl
    · intro j hj
      rw [hlo j (by omega), List.getElem?_set_ne (by omega), List.getElem?_set_ne (by omega)]
    · intro j hj
      rw [hhi j (by omega), List.getElem?_set_ne (by omega), List.getElem?_set_ne (by omega)]
    · intro k hk1 hk2
      by_cases hk : k = i
      · subst hk
        constructor
        · rw [hlo (1 + 2 * k) (by omega), List.getElem?_set_ne (by omega)]
          have : 1 + 2 * k = 1 + k * 2 := by omega
          rw [this, List.getElem?_set_self h1]
        · rw [hlo (2 + 2 * k) (by omega)]
          have : 2 + 2 * k = 1 + k * 2 + 1 := by omega
          rw [this, List.getElem?_set_self h2]
      · exact hmid k (by omega) (by omega)

theorem utf16le_units_length (l : List Nat) : (utf16le_units l).length = 2 * l.length := by
  induction l with
  | nil => rfl
  | cons a l ih => simp only [utf16le_units, List.length_cons, ih]; omega

theorem utf16le_units_even (l : List Nat) (k : Nat) :
    (utf16le_units l)[2 * k]? = l[k]?.map (fun ch => ch % 256) := by
  induction l generalizing k with
  | nil => simp [utf16le_units]
  | cons a l ih =>
    cases k with
    | zero => simp [utf16le_units]
    | succ k =>
      have : 2 * (k + 1) = 2 * k + 1 + 1 := by omega
      simp only [utf16le_units, this, List.getElem?_cons_succ, ih]

theorem utf16le_units_odd (l : List Nat) (k : Nat) :
    (utf16le_units l)[2 * k + 1]? = l[k]?.map (fun _ => 0) := by
  induction l generalizing k with
  | nil => simp [utf16le_units]
  | cons a l ih =>
    cases k with
    | zero => simp [utf16le_units]
    | succ k =>
      have : 2 * (k + 1) + 1 = (2 * k + 1) + 1 + 1 := by omega
      simp only [utf16le_units, this, List.getElem?_cons_succ, ih]

/-- The bytes of a C string followed by its terminator are the reads `c[0..strlen c]`. -/
theorem cstr_getElem? (c : List Nat) (k : Nat) (hk : k ≤ strlen c) :
    (c.takeWhile (fun b => b != 0) ++ [0])[k]? = some (c_at c k) := by
  induction c generalizing k with
  | nil =>
    have : k = 0 := by simpa [strlen] using hk
    subst this
    simp [c_at]
  | cons a c ih =>
    by_cases ha : a = 0
    · subst ha
      have : k = 0 := by simpa [strlen] using hk
      subst this
      simp [c_at]
    · have hs : strlen (a :: c) = strlen c + 1 := by
        simp [strlen, List.takeWhile_cons, ha]
      have ht : List.takeWhile (fun b => b != 0) (a :: c)
          = a :: List.takeWhile (fun b => b != 0) c := by
        simp [List.takeWhile_cons, ha]
      cases k with
      | zero => simp [ht, c_at]
      | succ k =>
        rw [ht, List.cons_append, List.getElem?_cons_succ, ih k (by omega)]
        simp [c_at]

/-- What the constructor builds for every C string short enough for `bytes_size`
not to wrap: the count byte (reduced to a `uint8_t`), then the units of the
characters and of the terminator. -/
theorem ctor_eq (garbage : Nat → Nat) (c : List Nat) (h : strlen c ≤ 32766) :
    socc_examples_ptpstring.ctor garbage c =
      some ⟨(strlen c % 256) :: utf16le_units (c.takeWhile (fun b => b != 0) ++ [0]),
        1 + (strlen c + 1) * 2⟩ := by
  have hsz : (1 + (strlen c + 1) * 2) % 65536 = 1 + (strlen c + 1) * 2 :=
    Nat.mod_eq_of_lt (by omega)
  have hnew : (operator_new garbage (1 + (strlen c + 1) * 2)).length
      = 1 + (strlen c + 1) * 2 := by
    simp [operator_new]
  have h0 : 0 < (operator_new garbage (1 + (strlen c + 1) * 2)).length := by omega
  obtain ⟨b, hb, hbl, hlo, _, hmid⟩ := fill_loop_spec c (strlen c + 1) 0
    ((operator_new garbage (1 + (strlen c + 1) * 2)).set 0 (strlen c % 256))
    (by rw [List.length_set]; omega)
  have hbe : b = (strlen c % 256) ::
      utf16le_units (c.takeWhile (fun b => b != 0) ++ [0]) := by
    apply List.ext_getElem?
    intro j
    rcases Nat.eq_zero_or_pos j with hj | hj
    · subst hj
      rw [hlo 0 (by omega), List.getElem?_set_self h0, List.getElem?_cons_zero]
    · obtain ⟨m, rfl⟩ : ∃ m, j = m + 1 := ⟨j - 1, by omega⟩
      rw [List.getElem?_cons_succ]
      by_cases hm : m < 2 * (strlen c + 1)
      · rcases Nat.even_or_odd' m with ⟨k, hk | hk⟩
        · subst hk
          have := (hmid k (by omega) (by omega)).1
          rw [show 2 * k + 1 = 1 + 2 * k by omega, this, utf16le_units_even,
            cstr_getElem? c k (by omega)]
          rfl
        · subst hk
          have := (hmid k (by omega) (by omega)).2
          rw [show 2 * k + 1 + 1 = 2 + 2 * k by omega, this, utf16le_units_odd,
            cstr_getElem? c k (by omega)]
          rfl
      · rw [List.getElem?_eq_none (by rw [hbl, List.length_set]; omega),
          List.getElem?_eq_none (by
            rw [utf16le_units_length]
            simp only [List.length_append, List.length_singleton, List.length_nil]
            have : (List.takeWhile (fun b => b != 0) c).length = strlen c := rfl
            omega)]
  simp only [socc_examples_ptpstring.ctor, hsz, store_eq_some _ h0, hb, hbe]

/-- A NUL-free string is its own C string. -/
theorem takeWhile_nul_free (S : List Nat) (h : ∀ b ∈ S, b ≠ 0) :
    S.takeWhile (fun b => b != 0) = S := by
  rw [List.takeWhile_eq_self_iff]
  intro x hx
  simpa using h x hx

theorem strlen_nul_free (S : List Nat) (h : ∀ b ∈ S, b ≠ 0) : strlen S = S.length := by
  rw [strlen, takeWhile_nul_free S h]

/-! ## The string encoder: claims -/

/-- C1: for every string `S` of length `N ≤ 254` with no NUL byte, the constructor
`socc_examples_ptpstring(const char*)` builds exactly `1 + (N+1)*2` bytes and sets
`bytes_size` to that number; byte 0 is `N`, byte `1+2i` is `S[i]` and byte `2+2i` is 0
for every `i < N`, and the last two bytes are 0. The string "ISO" gives
`[3,'I',0,'S',0,'O',0,0,0]`, 9 bytes. -/
theorem ptpstring_ctor_layout (garbage : Nat → Nat) (S : List Nat)
    (hS : ∀ b ∈ S, b ≠ 0 ∧ b < 256) (hN : S.length ≤ 254) :
    (∃ p, socc_examples_ptpstring.ctor garbage S = some p ∧
      p.bytes_size = 1 + (S.length + 1) * 2 ∧
      p.bytes.length = 1 + (S.length + 1) * 2 ∧
      p.bytes[0]? = some S.length ∧
      (∀ i, i < S.length → p.bytes[1 + 2 * i]? = S[i]? ∧ p.bytes[2 + 2 * i]? = some 0) ∧
      p.bytes[1 + 2 * S.length]? = some 0 ∧ p.bytes[2 + 2 * S.length]? = some 0) ∧
    socc_examples_ptpstring.ctor garbage [73, 83, 79]
      = some ⟨[3, 73, 0, 83, 0, 79, 0, 0, 0], 9⟩ := by
  have hz : ∀ b ∈ S, b ≠ 0 := fun b hb => (hS b hb).1
  have hlen := strlen_nul_free S hz
  constructor
  · refine ⟨_, ctor_eq garbage S (by omega), ?_, ?_, ?_, ?_, ?_, ?_⟩
    · simp only [hlen]
    · simp only [List.length_cons, utf16le_units_length, List.length_append,
        List.length_singleton, List.length_nil, takeWhile_nul_free S hz]
      omega
    · simp only [hlen, List.getElem?_cons_zero]
      rw [Nat.mod_eq_of_lt (by omega)]
    · intro i hi
      simp only [takeWhile_nul_free S hz]
      constructor
      · rw [show 1 + 2 * i = 2 * i + 1 by omega, List.getElem?_cons_succ,
          utf16le_units_even, List.getElem?_append_left hi, List.getElem?_eq_getElem hi]
        simp only [Option.map_some', Option.some.injEq]
        exact Nat.mod_eq_of_lt (hS _ (List.getElem_mem hi)).2
      · rw [show 2 + 2 * i = (2 * i + 1) + 1 by omega, List.getElem?_cons_succ,
          utf16le_units_odd, List.getElem?_append_left hi, List.getElem?_eq_getElem hi]
        rfl
    · simp only [takeWhile_nul_free S hz]
      rw [show 1 + 2 * S.length = 2 * S.length + 1 by omega, List.getElem?_cons_succ,
        utf16le_units_even]
      simp
    · simp only [takeWhile_nul_free S hz]
      rw [show 2 + 2 * S.length = (2 * S.length + 1) + 1 by omega, List.getElem?_cons_succ,
        utf16le_units_odd]
      simp
  · rw [ctor_eq garbage [73, 83, 79] (by decide)]
    rfl

/-- The layout of C1 at the string "OK" with an allocation that starts out as all 255. -/
theorem ptpstring_ctor_layout_witness :
    ∃ p, socc_examples_ptpstring.ctor (fun _ => 255) [79, 75] = some p ∧
      p.bytes_size = 7 ∧ p.bytes[0]? = some 2 :=
  have h := (ptpstring_ctor_layout (fun _ => 255) [79, 75] (by decide) (by decide)).1
  h.elim fun p hp => ⟨p, hp.1, hp.2.1, hp.2.2.2.1⟩

/-- C2: round trip. For every string `S` of at most 254 characters, none of them NUL and
all of them below 256 (every ASCII string is one), decoding what the constructor builds
gives `S` back. -/
theorem ptpstring_round_trip (garbage : Nat → Nat) (S : List Nat)
    (hS : ∀ b ∈ S, b ≠ 0 ∧ b < 256) (hN : S.length ≤ 254) :
    ∃ p, socc_examples_ptpstring.ctor garbage S = some p ∧ ptpstring_decode p.bytes = S := by
  have hz : ∀ b ∈ S, b ≠ 0 := fun b hb => (hS b hb).1
  have hlen := strlen_nul_free S hz
  refine ⟨_, ctor_eq garbage S (by omega), ?_⟩
  simp only [ptpstring_decode, hlen, takeWhile_nul_free S hz]
  rw [Nat.mod_eq_of_lt (by omega)]
  apply List.ext_getElem?
  intro i
  by_cases hi : i < S.length
  · rw [List.getElem?_map, List.getElem?_range hi, List.getElem?_eq_getElem hi]
    simp only [Option.map_some', Option.some.injEq, List.getD_eq_getElem?_getD]
    rw [utf16le_units_even, List.getElem?_append_left hi, List.getElem?_eq_getElem hi]
    simp only [Option.map_some', Option.getD_some]
    exact Nat.mod_eq_of_lt (hS _ (List.getElem_mem hi)).2
  · rw [List.getElem?_eq_none (by simpa using hi), List.getElem?_eq_none (by simpa using hi)]

/-- The round trip of C2 at the string "ISO". -/
theorem ptpstring_round_trip_witness :
    ∃ p, socc_examples_ptpstring.ctor (fun _ => 0) [73, 83, 79] = some p ∧
      ptpstring_decode p.bytes = [73, 83, 79] :=
  ptpstring_round_trip (fun _ => 0) [73, 83, 79] (by decide) (by decide)

/-- C3, refuted as stated: a string of 255 characters, one more than 254, is encoded
like any other. The constructor reports nothing and builds 513 bytes. -/
theorem ptpstring_ctor_no_TooLong :
    ∃ p, socc_examples_ptpstring.ctor (fun _ => 0) (List.replicate 255 65) = some p ∧
      p.bytes.length = 513 ∧ p.bytes_size = 513 ∧ p.bytes[0]? = some 255 := by
  have hz : ∀ b ∈ List.replicate 255 65, b ≠ 0 := by
    intro b hb
    rw [List.eq_of_mem_replicate hb]
    decide
  have hlen : strlen (List.replicate 255 65) = 255 := by
    rw [strlen_nul_free _ hz, List.length_replicate]
  refine ⟨_, ctor_eq _ _ (by omega), ?_, ?_, ?_⟩
  · simp only [List.length_cons, utf16le_units_length, List.length_append,
      List.length_singleton, List.length_nil, takeWhile_nul_free _ hz, List.length_replicate]
  · simp only [hlen]
  · simp only [hlen, List.getElem?_cons_zero]

/-- C3, amended: the constructor has no error path. For every input whose length `N` is
at most 32766, whether `N ≤ 254` or `N > 254`, it reports no error and builds
`1 + (N+1)*2` bytes, with `bytes_size` that number and the count byte `N mod 256`. -/
theorem ptpstring_ctor_total (garbage : Nat → Nat) (c : List Nat) (h : strlen c ≤ 32766) :
    ∃ p, socc_examples_ptpstring.ctor garbage c = some p ∧
      p.bytes.length = 1 + (strlen c + 1) * 2 ∧
      p.bytes_size = 1 + (strlen c + 1) * 2 ∧
      p.bytes[0]? = some (strlen c % 256) := by
  refine ⟨_, ctor_eq garbage c h, ?_, rfl, ?_⟩
  · simp only [List.length_cons, utf16le_units_length, List.length_append,
      List.length_singleton, List.length_nil]
    have : (List.takeWhile (fun b => b != 0) c).length = strlen c := rfl
    omega
  · simp only [List.getElem?_cons_zero]

/-- The amended C3 at a string of 256 characters: 515 bytes, count byte 0. -/
theorem ptpstring_ctor_total_witness :
    ∃ p, socc_examples_ptpstring.ctor (fun _ => 0) (List.replicate 256 65) = some p ∧
      p.bytes.length = 1 + (strlen (List.replicate 256 65) + 1) * 2 ∧
      p.bytes_size = 1 + (strlen (List.replicate 256 65) + 1) * 2 ∧
      p.bytes[0]? = some (strlen (List.replicate 256 65) % 256) :=
  ptpstring_ctor_total (fun _ => 0) (List.replicate 256 65)
    (by rw [strlen_nul_free _ (fun b hb => by rw [List.eq_of_mem_replicate hb]; decide),
      List.length_replicate]; decide)

/-! ## `wait_event` -/

/-- Every reply before the call `n + k` is skipped and the reply `n + k` ends the loop:
with enough fuel the loop returns after `k + 1` calls. -/
theorem wait_event_loop_hit (TIMEOUT : Int) (ptp : Nat → EventReply) (code : Nat) :
    ∀ (k n fuel : Nat),
      (∀ i, i < k → (ptp (n + i)).ret = TIMEOUT ∨
        ((ptp (n + i)).ret = 0 ∧ (ptp (n + i)).code ≠ code)) →
      (ptp (n + k)).ret ≠ TIMEOUT → (ptp (n + k)).code = code → k + 1 ≤ fuel →
      wait_event_loop TIMEOUT ptp code fuel n
        = some ⟨List.replicate (k + 1) Call.wait_event, Outcome.returned ()⟩ := by
  intro k
  induction k with
  | zero =>
    intro n fuel _ h1 h2 hf
    obtain ⟨f, rfl⟩ : ∃ f, fuel = f + 1 := ⟨fuel - 1, by omega⟩
    rw [Nat.add_zero] at h1 h2
    simp [wait_event_loop, h1, h2]
  | succ k ih =>
    intro n fuel hskip h1 h2 hf
    obtain ⟨f, rfl⟩ : ∃ f, fuel = f + 1 := ⟨fuel - 1, by omega⟩
    have hrec := ih (n + 1) f
      (fun i hi => by
        have := hskip (i + 1) (by omega)
        rwa [show n + (i + 1) = n + 1 + i by omega] at this)
      (by rwa [show n + (k + 1) = n + 1 + k by omega] at h1)
      (by rwa [show n + (k + 1) = n + 1 + k by omega] at h2)
      (by omega)
    have h0 := hskip 0 (by omega)
    rw [Nat.add_zero] at h0
    by_cases ht : (ptp n).ret = TIMEOUT
    · simp [wait_event_loop, ht, hrec, Run.after, List.replicate_succ]
    · rcases h0 with h0 | ⟨h0, h0c⟩
      · exact absurd h0 ht
      · simp [wait_event_loop, ht, h0, h0c, assert_socc, hrec, Run.after,
          List.replicate_succ]

/-- While every reply so far is skipped the loop has not returned. -/
theorem wait_event_loop_pending (TIMEOUT : Int) (ptp : Nat → EventReply) (code : Nat) :
    ∀ (fuel n k : Nat),
      (∀ i, i < k → (ptp (n + i)).ret = TIMEOUT ∨
        ((ptp (n + i)).ret = 0 ∧ (ptp (n + i)).code ≠ code)) →
      fuel ≤ k → wait_event_loop TIMEOUT ptp code fuel n = none := by
  intro fuel
  induction fuel with
  | zero => intro n k _ _; rfl
  | succ f ih =>
    intro n k hskip hf
    have hrec := ih (n + 1) (k - 1)
      (fun i hi => by
        have := hskip (i + 1) (by omega)
        rwa [show n + (i + 1) = n + 1 + i by omega] at this)
      (by omega)
    have h0 := hskip 0 (by omega)
    rw [Nat.add_zero] at h0
    by_cases ht : (ptp n).ret = TIMEOUT
    · simp [wait_event_loop, ht, hrec]
    · rcases h0 with h0 | ⟨h0, h0c⟩
      · exact absurd h0 ht
      · simp [wait_event_loop, ht, h0, h0c, assert_socc, hrec]

/-- C4: for every target code and every event stream whose replies are timeouts or
successes, `wait_event(code)` skips every timeout and every event with another code and
returns at the first reply that is no timeout and carries the target code, after exactly
that many `ptp.wait_event` calls and not before. On the stream
`[timeout, codeA, codeB, target]` with `codeA`, `codeB` different from the target it
returns after exactly four calls. -/
theorem wait_event_returns_at_first_match (TIMEOUT : Int) (code : Nat) :
    (∀ (ptp : Nat → EventReply) (k : Nat),
      (∀ i, (ptp i).ret = TIMEOUT ∨ (ptp i).ret = 0) →
      (∀ i, i < k → (ptp i).ret = TIMEOUT ∨ (ptp i).code ≠ code) →
      (ptp k).ret ≠ TIMEOUT → (ptp k).code = code →
      (∀ fuel, k + 1 ≤ fuel → wait_event TIMEOUT ptp code fuel
        = some ⟨List.replicate (k + 1) Call.wait_event, Outcome.returned ()⟩) ∧
      (∀ fuel, fuel ≤ k → wait_event TIMEOUT ptp code fuel = none)) ∧
    (∀ (stale codeA codeB : Nat) (rest : EventReply),
      TIMEOUT ≠ 0 → codeA ≠ code → codeB ≠ code →
      wait_event TIMEOUT
          (event_stream [⟨TIMEOUT, stale⟩, ⟨0, codeA⟩, ⟨0, codeB⟩, ⟨0, code⟩] rest) code 4
        = some ⟨[Call.wait_event, Call.wait_event, Call.wait_event, Call.wait_event],
            Outcome.returned ()⟩) := by
  have key : ∀ (ptp : Nat → EventReply) (k : Nat),
      (∀ i, (ptp i).ret = TIMEOUT ∨ (ptp i).ret = 0) →
      (∀ i, i < k → (ptp i).ret = TIMEOUT ∨ (ptp i).code ≠ code) →
      ∀ i, i < k → (ptp (0 + i)).ret = TIMEOUT ∨
        ((ptp (0 + i)).ret = 0 ∧ (ptp (0 + i)).code ≠ code) := by
    intro ptp k hclean hfirst i hi
    rw [Nat.zero_add]
    rcases hfirst i hi with h | h
    · exact Or.inl h
    · rcases hclean i with h2 | h2
      · exact Or.inl h2
      · exact Or.inr ⟨h2, h⟩
  constructor
  · intro ptp k hclean hfirst hret hcode
    constructor
    · intro fuel hf
      exact wait_event_loop_hit TIMEOUT ptp code k 0 fuel (key ptp k hclean hfirst)
        (by rwa [Nat.zero_add]) (by rwa [Nat.zero_add]) hf
    · intro fuel hf
      exact wait_event_loop_pending TIMEOUT ptp code fuel 0 k (key ptp k hclean hfirst) hf
  · intro stale codeA codeB rest hT hA hB
    have h := wait_event_loop_hit TIMEOUT
      (event_stream [⟨TIMEOUT, stale⟩, ⟨0, codeA⟩, ⟨0, codeB⟩, ⟨0, code⟩] rest) code 3 0 4
      (by
        intro i hi
        have hcases : i = 0 ∨ i = 1 ∨ i = 2 := by omega
        rcases hcases with h | h | h <;> subst h
        · exact Or.inl rfl
        · exact Or.inr ⟨rfl, hA⟩
        · exact Or.inr ⟨rfl, hB⟩)
      (fun h => hT h.symm) rfl (by omega)
    exact h

/-- C4 at the target code 4 with the timeout constant 9: the stream
`[timeout, 5, 6, 4]` is consumed in four calls, and a stream that delivers the target
at once is consumed in one. -/
theorem wait_event_returns_at_first_match_witness :
    wait_event 9 (event_stream [⟨9, 0⟩, ⟨0, 5⟩, ⟨0, 6⟩, ⟨0, 4⟩] ⟨9, 0⟩) 4 4
        = some ⟨[Call.wait_event, Call.wait_event, Call.wait_event, Call.wait_event],
            Outcome.returned ()⟩ ∧
    wait_event 9 (fun _ => ⟨0, 4⟩) 4 1
        = some ⟨List.replicate (0 + 1) Call.wait_event, Outcome.returned ()⟩ :=
  ⟨(wait_event_returns_at_first_match 9 4).2 0 5 6 ⟨9, 0⟩ (by decide) (by decide) (by decide),
   ((wait_event_returns_at_first_match 9 4).1 (fun _ => ⟨0, 4⟩) 0
      (fun _ => Or.inr rfl) (fun i hi => absurd hi (Nat.not_lt_zero i))
      (by decide) rfl).1 1 (Nat.le_refl 1)⟩

/-! ## `wait_for_CurrentValue` -/

theorem SDIO_GetAllExtDevicePropInfo_ok (parse : Option Buffer → SDIDevicePropInfoDatasetArray)
    (reply : ReceiveReply) (h : reply.code = 0x2001) :
    SDIO_GetAllExtDevicePropInfo parse reply
      = ⟨[Call.receive 0x96F6 [], Call.dispose_data reply.data],
          Outcome.returned (reply.ret, some (parse reply.data))⟩ := by
  simp [SDIO_GetAllExtDevicePropInfo, assert_socc, h]

theorem SDIO_GetAllExtDevicePropInfo_bad (parse : Option Buffer → SDIDevicePropInfoDatasetArray)
    (reply : ReceiveReply) (h : reply.code ≠ 0x2001) :
    SDIO_GetAllExtDevicePropInfo parse reply
      = ⟨[Call.receive 0x96F6 []], Outcome.exited EXIT_FAILURE⟩ := by
  have h2 : ¬ (0x2001 = reply.code) := fun e => h e.symm
  simp [SDIO_GetAllExtDevicePropInfo, assert_socc, h2]

/-- One pass through the body of the loop of `wait_for_CurrentValue` when the poll
reports the status 0x2001. -/
theorem wait_for_CurrentValue_loop_step (parse : Option Buffer → SDIDevicePropInfoDatasetArray)
    (ptp : Nat → ReceiveReply) (code : Nat) (expect : Int) (f : Nat) (count : Int) (n : Nat)
    (hc : count > 0) (hcode : (ptp n).code = 0x2001) :
    wait_for_CurrentValue_loop parse ptp code expect (f + 1) count n =
      if (ptp n).ret < 0 then
        some ⟨[Call.receive 0x96F6 [], Call.dispose_data (ptp n).data],
          Outcome.returned (ptp n).ret⟩
      else
        match (parse (ptp n).data).get code with
        | none =>
          (wait_for_CurrentValue_loop parse ptp code expect f (count - 1) (n + 1)).map
            (Run.after [Call.receive 0x96F6 [], Call.dispose_data (ptp n).data])
        | some d =>
          if d.CurrentValue = expect then
            some ⟨[Call.receive 0x96F6 [], Call.dispose_data (ptp n).data],
              Outcome.returned 0⟩
          else
            (wait_for_CurrentValue_loop parse ptp code expect f (count - 1) (n + 1)).map
              (Run.after [Call.receive 0x96F6 [], Call.dispose_data (ptp n).data]) := by
  simp only [wait_for_CurrentValue_loop, hc, if_true,
    SDIO_GetAllExtDevicePropInfo_ok parse (ptp n) hcode]

/-- One pass through the body ends the run with at most one `receive`, or hands over
to the rest of the loop after exactly one. -/
theorem wait_for_CurrentValue_loop_cases (parse : Option Buffer → SDIDevicePropInfoDatasetArray)
    (ptp : Nat → ReceiveReply) (code : Nat) (expect : Int) (f : Nat) (count : Int) (n : Nat)
    (hc : count > 0) :
    (∃ o, wait_for_CurrentValue_loop parse ptp code expect (f + 1) count n
        = some ⟨[Call.receive 0x96F6 []], o⟩) ∨
    (∃ o, wait_for_CurrentValue_loop parse ptp code expect (f + 1) count n
        = some ⟨[Call.receive 0x96F6 [], Call.dispose_data (ptp n).data], o⟩) ∨
    wait_for_CurrentValue_loop parse ptp code expect (f + 1) count n
      = (wait_for_CurrentValue_loop parse ptp code expect f (count - 1) (n + 1)).map
          (Run.after [Call.receive 0x96F6 [], Call.dispose_data (ptp n).data]) := by
  by_cases hcode : (ptp n).code = 0x2001
  · rw [wait_for_CurrentValue_loop_step parse ptp code expect f count n hc hcode]
    by_cases hret : (ptp n).ret < 0
    · exact Or.inr (Or.inl ⟨Outcome.returned (ptp n).ret, by simp only [hret, if_true]⟩)
    · simp only [hret, if_false]
      cases hget : (parse (ptp n).data).get code with
      | none => exact Or.inr (Or.inr rfl)
      | some d =>
        by_cases hv : d.CurrentValue = expect
        · exact Or.inr (Or.inl ⟨Outcome.returned 0, by simp only [hv, if_true]⟩)
        · exact Or.inr (Or.inr (by simp only [hv, if_false]))
  · exact Or.inl ⟨Outcome.exited EXIT_FAILURE, by
      simp only [wait_for_CurrentValue_loop, hc, if_true,
        SDIO_GetAllExtDevicePropInfo_bad parse (ptp n) hcode]⟩

/-- The loop ends within `count` iterations, whatever the transport replies. -/
theorem wait_for_CurrentValue_loop_bounded (parse : Option Buffer → SDIDevicePropInfoDatasetArray)
    (ptp : Nat → ReceiveReply) (code : Nat) (expect : Int) :
    ∀ (fuel : Nat) (count : Int) (n : Nat), count.toNat < fuel →
      ∃ r, wait_for_CurrentValue_loop parse ptp code expect fuel count n = some r ∧
        r.trace.countP Call.is_receive ≤ count.toNat ∧
        ∀ c ∈ r.trace, c.is_receive = true → c = Call.receive 0x96F6 [] := by
  intro fuel
  induction fuel with
  | zero => intro count n h; omega
  | succ f ih =>
    intro count n hf
    by_cases hc : count > 0
    · rcases wait_for_CurrentValue_loop_cases parse ptp code expect f count n hc with
        ⟨o, ho⟩ | ⟨o, ho⟩ | hrec
      · refine ⟨_, ho, ?_, ?_⟩
        · simp [Call.is_receive]; omega
        · intro c hcm _
          simpa using hcm
      · refine ⟨_, ho, ?_, ?_⟩
        · simp [Call.is_receive]; omega
        · intro c hcm hr
          simp only [List.mem_cons, List.mem_singleton, List.not_mem_nil, or_false] at hcm
          rcases hcm with h | h
          · exact h
          · subst h; simp [Call.is_receive] at hr
      · obtain ⟨r, hr, hcount, hall⟩ := ih (count - 1) (n + 1) (by omega)
        refine ⟨Run.after [Call.receive 0x96F6 [], Call.dispose_data (ptp n).data] r,
          by rw [hrec, hr]; rfl, ?_, ?_⟩
        · simp only [Run.after, List.countP_append]
          simp [Call.is_receive]
          omega
        · intro c hcm hrc
          simp only [Run.after, List.mem_append, List.mem_cons, List.mem_singleton,
            List.not_mem_nil, or_false] at hcm
          rcases hcm with (h | h) | h
          · exact h
          · subst h; simp [Call.is_receive] at hrc
          · exact hall c h hrc
    · refine ⟨⟨[], Outcome.returned 0⟩, by simp only [wait_for_CurrentValue_loop, hc, if_false],
        by simp, by simp⟩

/-- C5: for every property code, expected value, attempt budget `count` (zero and
negative values included) and every behaviour of the transport, `wait_for_CurrentValue`
ends: once the loop condition may be evaluated `max(count, 0) + 1` times the run is
complete, so the body runs at most `max(count, 0)` times, and the run issues at most
that many `receive` calls, each with opcode 0x96F6. -/
theorem wait_for_CurrentValue_bounded (parse : Option Buffer → SDIDevicePropInfoDatasetArray)
    (ptp : Nat → ReceiveReply) (code : Nat) (expect : Int) (count : Int) (fuel : Nat)
    (hfuel : max count 0 + 1 ≤ (fuel : Int)) :
    ∃ r, wait_for_CurrentValue parse ptp code expect count fuel = some r ∧
      (r.trace.countP Call.is_receive : Int) ≤ max count 0 ∧
      ∀ c ∈ r.trace, c.is_receive = true → c = Call.receive 0x96F6 [] := by
  obtain ⟨r, hr, hcount, hall⟩ :=
    wait_for_CurrentValue_loop_bounded parse ptp code expect fuel count 0 (by omega)
  exact ⟨r, hr, by omega, hall⟩

/-- C5 with a budget of 2 against a transport that never shows the property, and with a
negative budget. -/
theorem wait_for_CurrentValue_bounded_witness :
    (∃ r, wait_for_CurrentValue (fun _ => []) (fun _ => ⟨0, 0x2001, none, 0⟩) 5 1 2 3
        = some r ∧ (r.trace.countP Call.is_receive : Int) ≤ max 2 0) ∧
    (∃ r, wait_for_CurrentValue (fun _ => []) (fun _ => ⟨0, 0x2001, none, 0⟩) 5 1 (-4) 1
        = some r ∧ (r.trace.countP Call.is_receive : Int) ≤ max (-4) 0) :=
  ⟨(wait_for_CurrentValue_bounded (fun _ => []) (fun _ => ⟨0, 0x2001, none, 0⟩) 5 1 2 3
      (by decide)).elim fun r hr => ⟨r, hr.1, hr.2.1⟩,
   (wait_for_CurrentValue_bounded (fun _ => []) (fun _ => ⟨0, 0x2001, none, 0⟩) 5 1 (-4) 1
      (by decide)).elim fun r hr => ⟨r, hr.1, hr.2.1⟩⟩

/-- With the status 0x2001 on every poll the loop returns, and it returns 0 unless a
poll came back negative, which is then the last poll and the value returned. -/
theorem wait_for_CurrentValue_loop_result (parse : Option Buffer → SDIDevicePropInfoDatasetArray)
    (ptp : Nat → ReceiveReply) (code : Nat) (expect : Int) :
    ∀ (fuel : Nat) (count : Int) (n : Nat), count.toNat < fuel →
      (∀ i, i < count.toNat → (ptp (n + i)).code = 0x2001) →
      ∃ r ret, wait_for_CurrentValue_loop parse ptp code expect fuel count n = some r ∧
        r.outcome = Outcome.returned ret ∧
        ((∀ i, i < count.toNat → 0 ≤ (ptp (n + i)).ret) → ret = 0) ∧
        (ret ≠ 0 → ret < 0 ∧ ∃ k, k < count.toNat ∧ (ptp (n + k)).ret = ret ∧
          (∀ j, j < k → 0 ≤ (ptp (n + j)).ret) ∧
          r.trace.countP Call.is_receive = k + 1) := by
  intro fuel
  induction fuel with
  | zero => intro count n h; omega
  | succ f ih =>
    intro count n hf hstatus
    by_cases hc : count > 0
    · have hpos : 0 < count.toNat := by omega
      have hcode : (ptp n).code = 0x2001 := by
        have := hstatus 0 hpos
        rwa [Nat.add_zero] at this
      obtain ⟨r, ret, hr, hout, hzero, hneg⟩ := ih (count - 1) (n + 1) (by omega)
        (fun i hi => by
          have := hstatus (i + 1) (by omega)
          rwa [show n + (i + 1) = n + 1 + i by omega] at this)
      -- the run of the rest of the loop, after this poll
      have hrest : ∃ r2 ret2,
          (wait_for_CurrentValue_loop parse ptp code expect f (count - 1) (n + 1)).map
            (Run.after [Call.receive 0x96F6 [], Call.dispose_data (ptp n).data]) = some r2 ∧
          r2.outcome = Outcome.returned ret2 ∧
          (0 ≤ (ptp n).ret → (∀ i, i < count.toNat → 0 ≤ (ptp (n + i)).ret) → ret2 = 0) ∧
          (0 ≤ (ptp n).ret → ret2 ≠ 0 → ret2 < 0 ∧ ∃ k, k < count.toNat ∧
            (ptp (n + k)).ret = ret2 ∧ (∀ j, j < k → 0 ≤ (ptp (n + j)).ret) ∧
            r2.trace.countP Call.is_receive = k + 1) := by
        refine ⟨Run.after [Call.receive 0x96F6 [], Call.dispose_data (ptp n).data] r, ret,
          by rw [hr]; rfl, hout, ?_, ?_⟩
        · intro _ hall
          exact hzero (fun i hi => by
            have := hall (i + 1) (by omega)
            rwa [show n + (i + 1) = n + 1 + i by omega] at this)
        · intro h0 hne
          obtain ⟨hlt, k, hk, hkret, hkpre, hkcount⟩ := hneg hne
          refine ⟨hlt, k + 1, by omega, ?_, ?_, ?_⟩
          · rwa [show n + (k + 1) = n + 1 + k by omega]
          · intro j hj
            cases j with
            | zero => simpa using h0
            | succ j =>
              have := hkpre j (by omega)
              rwa [show n + (j + 1) = n + 1 + j by omega]
          · simp only [Run.after, List.countP_append, hkcount]
            simp [Call.is_receive]
            omega
      rw [wait_for_CurrentValue_loop_step parse ptp code expect f count n hc hcode]
      by_cases hret : (ptp n).ret < 0
      · simp only [hret, if_true]
        refine ⟨_, (ptp n).ret, rfl, rfl, ?_, ?_⟩
        · intro hall
          have := hall 0 hpos
          rw [Nat.add_zero] at this
          exact absurd hret (Int.not_lt.mpr this)
        · intro _
          exact ⟨hret, 0, hpos, rfl, fun j hj => absurd hj (Nat.not_lt_zero j),
            by simp [Call.is_receive]⟩
      · obtain ⟨r2, ret2, hr2, hout2, hzero2, hneg2⟩ := hrest
        simp only [hret, if_false]
        cases hget : (parse (ptp n).data).get code with
        | none =>
          exact ⟨r2, ret2, hr2, hout2, hzero2 (Int.not_lt.mp hret), hneg2 (Int.not_lt.mp hret)⟩
        | some d =>
          by_cases hv : d.CurrentValue = expect
          · simp only [hv, if_true]
            refine ⟨_, 0, rfl, rfl, fun _ => rfl, ?_⟩
            intro h; exact absurd rfl h
          · simp only [hv, if_false]
            exact ⟨r2, ret2, hr2, hout2, hzero2 (Int.not_lt.mp hret), hneg2 (Int.not_lt.mp hret)⟩
    · refine ⟨⟨[], Outcome.returned 0⟩, 0,
        by simp only [wait_for_CurrentValue_loop, hc, if_false], rfl, fun _ => rfl, ?_⟩
      intro h; exact absurd rfl h

/-- With the status 0x2001 on every poll of the budget, where the loop stops and what
it returns: at the first negative poll, with that result; at the first poll that shows
the expected value, with 0; or after the whole budget, with 0. -/
theorem wait_for_CurrentValue_loop_stops (parse : Option Buffer → SDIDevicePropInfoDatasetArray)
    (ptp : Nat → ReceiveReply) (code : Nat) (expect : Int) :
    ∀ (fuel : Nat) (count : Int) (n : Nat), count.toNat < fuel →
      (∀ i, i < count.toNat → (ptp (n + i)).code = 0x2001) →
      ∃ r, wait_for_CurrentValue_loop parse ptp code expect fuel count n = some r ∧
        (∀ k, k < count.toNat →
          (∀ j, j < k → 0 ≤ (ptp (n + j)).ret ∧
            ∀ d, (parse (ptp (n + j)).data).get code = some d → d.CurrentValue ≠ expect) →
          (ptp (n + k)).ret < 0 →
          r.outcome = Outcome.returned (ptp (n + k)).ret ∧
          r.trace.countP Call.is_receive = k + 1) ∧
        (∀ (k : Nat) (d : SDIDevicePropInfoDataset), k < count.toNat →
          (∀ j, j < k → 0 ≤ (ptp (n + j)).ret ∧
            ∀ e, (parse (ptp (n + j)).data).get code = some e → e.CurrentValue ≠ expect) →
          0 ≤ (ptp (n + k)).ret →
          (parse (ptp (n + k)).data).get code = some d → d.CurrentValue = expect →
          r.outcome = Outcome.returned 0 ∧
          r.trace.countP Call.is_receive = k + 1) ∧
        ((∀ i, i < count.toNat → 0 ≤ (ptp (n + i)).ret ∧
            ∀ d, (parse (ptp (n + i)).data).get code = some d → d.CurrentValue ≠ expect) →
          r.outcome = Outcome.returned 0 ∧
          r.trace.countP Call.is_receive = count.toNat) := by
  intro fuel
  induction fuel with
  | zero => intro count n h; omega
  | succ f ih =>
    intro count n hf hstatus
    by_cases hc : count > 0
    · have hpos : 0 < count.toNat := by omega
      have hbudget : (count - 1).toNat + 1 = count.toNat := by omega
      have hcode : (ptp n).code = 0x2001 := by
        have := hstatus 0 hpos
        rwa [Nat.add_zero] at this
      obtain ⟨r, hr, hA, hB, hC⟩ := ih (count - 1) (n + 1) (by omega)
        (fun i hi => by
          have := hstatus (i + 1) (by omega)
          rwa [show n + (i + 1) = n + 1 + i by omega] at this)
      have hshift : ∀ i, n + (i + 1) = n + 1 + i := fun i => by omega
      -- the run that goes on with the rest of the loop, when this poll is passed over
      have hrest : 0 ≤ (ptp n).ret →
          (∀ d, (parse (ptp n).data).get code = some d → d.CurrentValue ≠ expect) →
          (∀ k, k < count.toNat →
            (∀ j, j < k → 0 ≤ (ptp (n + j)).ret ∧
              ∀ d, (parse (ptp (n + j)).data).get code = some d →
                d.CurrentValue ≠ expect) →
            (ptp (n + k)).ret < 0 →
            (Run.after [Call.receive 0x96F6 [], Call.dispose_data (ptp n).data] r).outcome
              = Outcome.returned (ptp (n + k)).ret ∧
            (Run.after [Call.receive 0x96F6 [], Call.dispose_data (ptp n).data]
              r).trace.countP Call.is_receive = k + 1) ∧
          (∀ (k : Nat) (d : SDIDevicePropInfoDataset), k < count.toNat →
            (∀ j, j < k → 0 ≤ (ptp (n + j)).ret ∧
              ∀ e, (parse (ptp (n + j)).data).get code = some e →
                e.CurrentValue ≠ expect) →
            0 ≤ (ptp (n + k)).ret →
            (parse (ptp (n + k)).data).get code = some d → d.CurrentValue = expect →
            (Run.after [Call.receive 0x96F6 [], Call.dispose_data (ptp n).data] r).outcome
              = Outcome.returned 0 ∧
            (Run.after [Call.receive 0x96F6 [], Call.dispose_data (ptp n).data]
              r).trace.countP Call.is_receive = k + 1) ∧
          ((∀ i, i < count.toNat → 0 ≤ (ptp (n + i)).ret ∧
              ∀ d, (parse (ptp (n + i)).data).get code = some d →
                d.CurrentValue ≠ expect) →
            (Run.after [Call.receive 0x96F6 [], Call.dispose_data (ptp n).data] r).outcome
              = Outcome.returned 0 ∧
            (Run.after [Call.receive 0x96F6 [], Call.dispose_data (ptp n).data]
              r).trace.countP Call.is_receive = count.toNat) := by
        intro hnn hnomatch
        have hcnt : ∀ m : Nat, r.trace.countP Call.is_receive = m →
            (Run.after [Call.receive 0x96F6 [], Call.dispose_data (ptp n).data]
              r).trace.countP Call.is_receive = m + 1 := by
          intro m hm
          simp only [Run.after, List.countP_append, hm]
          simp [Call.is_receive]
          omega
        refine ⟨?_, ?_, ?_⟩
        · intro k hk hpre hneg
          cases k with
          | zero =>
            rw [Nat.add_zero] at hneg
            exact absurd hneg (Int.not_lt.mpr hnn)
          | succ k =>
            obtain ⟨hout, hcount⟩ := hA k (by omega)
              (fun j hj => by
                have := hpre (j + 1) (by omega)
                rwa [hshift j] at this)
              (by rwa [hshift k] at hneg)
            rw [hshift k]
            exact ⟨hout, hcnt _ hcount⟩
        · intro k d hk hpre hnnk hgetk hd
          cases k with
          | zero =>
            rw [Nat.add_zero] at hgetk
            exact absurd hd (hnomatch d hgetk)
          | succ k =>
            obtain ⟨hout, hcount⟩ := hB k d (by omega)
              (fun j hj => by
                have := hpre (j + 1) (by omega)
                rwa [hshift j] at this)
              (by rwa [hshift k] at hnnk) (by rwa [hshift k] at hgetk) hd
            exact ⟨hout, hcnt _ hcount⟩
        · intro hall
          obtain ⟨hout, hcount⟩ := hC (fun i hi => by
            have := hall (i + 1) (by omega)
            rwa [hshift i] at this)
          refine ⟨hout, ?_⟩
          rw [hcnt _ hcount]
          exact hbudget
      rw [wait_for_CurrentValue_loop_step parse ptp code expect f count n hc hcode]
      by_cases hret : (ptp n).ret < 0
      · simp only [hret, if_true]
        refine ⟨_, rfl, ?_, ?_, ?_⟩
        · intro k hk hpre hneg
          cases k with
          | zero =>
            rw [Nat.add_zero]
            exact ⟨rfl, by simp [Call.is_receive]⟩
          | succ k =>
            have := (hpre 0 (Nat.succ_pos k)).1
            rw [Nat.add_zero] at this
            exact absurd hret (Int.not_lt.mpr this)
        · intro k d hk hpre hnnk hgetk hd
          cases k with
          | zero =>
            rw [Nat.add_zero] at hnnk
            exact absurd hret (Int.not_lt.mpr hnnk)
          | succ k =>
            have := (hpre 0 (Nat.succ_pos k)).1
            rw [Nat.add_zero] at this
            exact absurd hret (Int.not_lt.mpr this)
        · intro hall
          have := (hall 0 hpos).1
          rw [Nat.add_zero] at this
          exact absurd hret (Int.not_lt.mpr this)
      · have hnn : 0 ≤ (ptp n).ret := Int.not_lt.mp hret
        simp only [hret, if_false]
        cases hget : (parse (ptp n).data).get code with
        | none =>
          exact ⟨Run.after [Call.receive 0x96F6 [], Call.dispose_data (ptp n).data] r,
            by simp only [hr]; rfl,
            hrest hnn (fun d hd => by rw [hget] at hd; exact absurd hd (by simp))⟩
        | some d0 =>
          by_cases hv : d0.CurrentValue = expect
          · simp only [hv, if_true]
            refine ⟨_, rfl, ?_, ?_, ?_⟩
            · intro k hk hpre hneg
              cases k with
              | zero =>
                rw [Nat.add_zero] at hneg
                exact absurd hneg hret
              | succ k =>
                have := (hpre 0 (Nat.succ_pos k)).2 d0 (by rw [Nat.add_zero]; exact hget)
                exact absurd hv this
            · intro k d hk hpre hnnk hgetk hd
              cases k with
              | zero => exact ⟨rfl, by simp [Call.is_receive]⟩
              | succ k =>
                have := (hpre 0 (Nat.succ_pos k)).2 d0 (by rw [Nat.add_zero]; exact hget)
                exact absurd hv this
            · intro hall
              have := (hall 0 hpos).2 d0 (by rw [Nat.add_zero]; exact hget)
              exact absurd hv this
          · simp only [hv, if_false]
            exact ⟨Run.after [Call.receive 0x96F6 [], Call.dispose_data (ptp n).data] r,
              by simp only [hr]; rfl,
              hrest hnn (fun d hd => by
                rw [hget] at hd
                cases hd
                exact hv)⟩
    · have hz : count.toNat = 0 := by omega
      refine ⟨⟨[], Outcome.returned 0⟩,
        by simp only [wait_for_CurrentValue_loop, hc, if_false], ?_, ?_, ?_⟩
      · intro k hk; omega
      · intro k d hk; omega
      · intro _; exact ⟨rfl, by simp [hz]⟩

/-- C6: when every poll of the budget reports the status 0x2001, `wait_for_CurrentValue`
returns to its caller. It returns 0 whenever no poll returns a negative transport
result: at the first poll that shows the expected value, and after the whole budget
when the property was found without matching or never found. When a poll returns a
negative result while the loop is still polling, the function returns that result and
that poll is the last one issued. A result other than 0 arises only in this way: it is
the negative result of a poll, every poll before it was not negative, and no poll
follows it. -/
theorem wait_for_CurrentValue_result (parse : Option Buffer → SDIDevicePropInfoDatasetArray)
    (ptp : Nat → ReceiveReply) (code : Nat) (expect : Int) (count : Int) (fuel : Nat)
    (hstatus : ∀ i, i < count.toNat → (ptp i).code = 0x2001)
    (hfuel : count.toNat + 1 ≤ fuel) :
    ∃ r ret, wait_for_CurrentValue parse ptp code expect count fuel = some r ∧
      r.outcome = Outcome.returned ret ∧
      ((∀ i, i < count.toNat → 0 ≤ (ptp i).ret) → ret = 0) ∧
      (ret ≠ 0 → ret < 0 ∧ ∃ k, k < count.toNat ∧ (ptp k).ret = ret ∧
        (∀ j, j < k → 0 ≤ (ptp j).ret) ∧ r.trace.countP Call.is_receive = k + 1) ∧
      (∀ k, k < count.toNat →
        (∀ j, j < k → 0 ≤ (ptp j).ret ∧
          ∀ d, (parse (ptp j).data).get code = some d → d.CurrentValue ≠ expect) →
        (ptp k).ret < 0 →
        ret = (ptp k).ret ∧ r.trace.countP Call.is_receive = k + 1) ∧
      (∀ (k : Nat) (d : SDIDevicePropInfoDataset), k < count.toNat →
        (∀ j, j < k → 0 ≤ (ptp j).ret ∧
          ∀ e, (parse (ptp j).data).get code = some e → e.CurrentValue ≠ expect) →
        0 ≤ (ptp k).ret →
        (parse (ptp k).data).get code = some d → d.CurrentValue = expect →
        ret = 0 ∧ r.trace.countP Call.is_receive = k + 1) ∧
      ((∀ i, i < count.toNat → 0 ≤ (ptp i).ret ∧
          ∀ d, (parse (ptp i).data).get code = some d → d.CurrentValue ≠ expect) →
        ret = 0 ∧ r.trace.countP Call.is_receive = count.toNat) := by
  obtain ⟨r, ret, hr, hout, hzero, hneg⟩ :=
    wait_for_CurrentValue_loop_result parse ptp code expect fuel count 0 (by omega)
      (fun i hi => by rw [Nat.zero_add]; exact hstatus i hi)
  obtain ⟨r2, hr2, hA, hB, hC⟩ :=
    wait_for_CurrentValue_loop_stops parse ptp code expect fuel count 0 (by omega)
      (fun i hi => by rw [Nat.zero_add]; exact hstatus i hi)
  have hsame : r2 = r := by
    rw [hr] at hr2
    exact (Option.some.inj hr2).symm
  subst hsame
  simp only [Nat.zero_add] at hzero hneg hA hB hC
  have hval : ∀ x : Int, r2.outcome = Outcome.returned x → ret = x := by
    intro x hx
    rw [hout] at hx
    exact Outcome.returned.inj hx
  refine ⟨r2, ret, hr, hout, hzero, hneg, ?_, ?_, ?_⟩
  · intro k hk hpre hnegk
    exact ⟨hval _ (hA k hk hpre hnegk).1, (hA k hk hpre hnegk).2⟩
  · intro k d hk hpre hnnk hgetk hd
    exact ⟨hval _ (hB k d hk hpre hnnk hgetk hd).1, (hB k d hk hpre hnnk hgetk hd).2⟩
  · intro hall
    exact ⟨hval _ (hC hall).1, (hC hall).2⟩

/-- C6 against a transport whose second poll fails with -3 (budget 5): the function
returns -3 after exactly two polls; and against one that never shows the property
(budget 2): it returns 0 after exactly two polls. -/
theorem wait_for_CurrentValue_result_witness :
    (∃ r, wait_for_CurrentValue (fun _ => [])
        (fun n => if n = 1 then ⟨-3, 0x2001, none, 0⟩ else ⟨0, 0x2001, none, 0⟩) 5 1 5 6
          = some r ∧ r.outcome = Outcome.returned (-3) ∧
        r.trace.countP Call.is_receive = 1 + 1) ∧
    (∃ r, wait_for_CurrentValue (fun _ => []) (fun _ => ⟨0, 0x2001, none, 0⟩) 5 1 2 3
          = some r ∧ r.outcome = Outcome.returned 0 ∧
        r.trace.countP Call.is_receive = (2 : Int).toNat) :=
  ⟨(wait_for_CurrentValue_result (fun _ => [])
      (fun n => if n = 1 then ⟨-3, 0x2001, none, 0⟩ else ⟨0, 0x2001, none, 0⟩) 5 1 5 6
      (fun i _ => by by_cases h : i = 1 <;> simp [h]) (by decide)).elim
      fun r h => h.elim fun ret hret =>
        have hstop := hret.2.2.2.2.1 1 (by decide)
          (fun j hj => by
            have h0 : j = 0 := by omega
            subst h0
            exact ⟨by decide, fun d hd => by
              simp [SDIDevicePropInfoDatasetArray.get] at hd⟩)
          (by decide)
        ⟨r, hret.1, by rw [hret.2.1, hstop.1]; rfl, hstop.2⟩,
   (wait_for_CurrentValue_result (fun _ => []) (fun _ => ⟨0, 0x2001, none, 0⟩) 5 1 2 3
      (fun _ _ => rfl) (by decide)).elim
      fun r h => h.elim fun ret hret =>
        have hend := hret.2.2.2.2.2.2
          (fun _ _ => ⟨Int.le_refl 0, fun d hd => by
            simp [SDIDevicePropInfoDatasetArray.get] at hd⟩)
        ⟨r, hret.1, by rw [hret.2.1, hend.1], hend.2⟩⟩

/-! ## `wait_for_IsEnable` -/

/-- One pass through the body of the loop of `wait_for_IsEnable` when the poll
succeeds (return value 0, status 0x2001). -/
theorem wait_for_IsEnable_loop_step (parse : Option Buffer → SDIDevicePropInfoDatasetArray)
    (ptp : Nat → ReceiveReply) (code expect : Nat) (f : Nat) (count : Int) (n : Nat)
    (dataset : Option SDIDevicePropInfoDataset)
    (hc : count > 0) (hret : (ptp n).ret = 0) (hcode : (ptp n).code = 0x2001) :
    wait_for_IsEnable_loop parse ptp code expect (f + 1) count n dataset =
      match (parse (ptp n).data).get code with
      | none =>
        (wait_for_IsEnable_loop parse ptp code expect f (count - 1) (n + 1) none).map
          (Run.after [Call.receive 0x96F6 [], Call.dispose_data (ptp n).data])
      | some d =>
        if d.IsEnable = expect then
          some ⟨[Call.receive 0x96F6 [], Call.dispose_data (ptp n).data],
            Outcome.returned (some d)⟩
        else
          (wait_for_IsEnable_loop parse ptp code expect f (count - 1) (n + 1) (some d)).map
            (Run.after [Call.receive 0x96F6 [], Call.dispose_data (ptp n).data]) := by
  simp only [wait_for_IsEnable_loop, hc, if_true,
    SDIO_GetAllExtDevicePropInfo_ok parse (ptp n) hcode, hret, assert_socc]

/-- The polls of the whole budget succeed and none of them shows the property with the
expected `IsEnable`: the loop runs the budget out and the function returns what the
last poll found for the property. -/
theorem wait_for_IsEnable_loop_exhausted (parse : Option Buffer → SDIDevicePropInfoDatasetArray)
    (ptp : Nat → ReceiveReply) (code expect : Nat) :
    ∀ (fuel : Nat) (count : Int) (n : Nat) (dataset : Option SDIDevicePropInfoDataset),
      count.toNat < fuel →
      (∀ i, i < count.toNat → (ptp (n + i)).ret = 0 ∧ (ptp (n + i)).code = 0x2001 ∧
        ∀ d, (parse (ptp (n + i)).data).get code = some d → d.IsEnable ≠ expect) →
      ∃ r, wait_for_IsEnable_loop parse ptp code expect fuel count n dataset = some r ∧
        r.outcome = Outcome.returned
          (if count.toNat = 0 then dataset
           else (parse (ptp (n + (count.toNat - 1))).data).get code) ∧
        r.trace.countP Call.is_receive = count.toNat := by
  intro fuel
  induction fuel with
  | zero => intro count n dataset h; omega
  | succ f ih =>
    intro count n dataset hf hpolls
    by_cases hc : count > 0
    · have hpos : 0 < count.toNat := by omega
      have hne : ¬ count.toNat = 0 := by omega
      have h0 := hpolls 0 hpos
      rw [Nat.add_zero] at h0
      have hshift : ∀ i, i < (count - 1).toNat →
          (ptp (n + 1 + i)).ret = 0 ∧ (ptp (n + 1 + i)).code = 0x2001 ∧
          ∀ d, (parse (ptp (n + 1 + i)).data).get code = some d → d.IsEnable ≠ expect := by
        intro i hi
        have := hpolls (i + 1) (by omega)
        rwa [show n + (i + 1) = n + 1 + i by omega] at this
      have hfuel : (count - 1).toNat < f := by omega
      -- what the rest of the loop returns, in terms of this poll
      have hlast : ∀ ds : Option SDIDevicePropInfoDataset,
          ds = (parse (ptp n).data).get code →
          (if (count - 1).toNat = 0 then ds
            else (parse (ptp (n + 1 + ((count - 1).toNat - 1))).data).get code)
          = (parse (ptp (n + (count.toNat - 1))).data).get code := by
        intro ds hds
        by_cases hz : (count - 1).toNat = 0
        · have h1 : count.toNat - 1 = 0 := by omega
          simp only [hz, if_true, h1, Nat.add_zero, hds]
        · have h1 : n + 1 + ((count - 1).toNat - 1) = n + (count.toNat - 1) := by omega
          simp only [hz, if_false, h1]
      rw [wait_for_IsEnable_loop_step parse ptp code expect f count n dataset hc h0.1 h0.2.1]
      simp only [hne, if_false]
      cases hget : (parse (ptp n).data).get code with
      | none =>
        obtain ⟨r, hr, hout, hcount⟩ := ih (count - 1) (n + 1) none hfuel hshift
        refine ⟨Run.after [Call.receive 0x96F6 [], Call.dispose_data (ptp n).data] r,
          by simp only [hr]; rfl, ?_, ?_⟩
        · simp only [Run.after, hout]
          rw [hlast none hget.symm]
        · simp only [Run.after, List.countP_append, hcount]
          simp [Call.is_receive]
          omega
      | some d =>
        have hd : ¬ d.IsEnable = expect := h0.2.2 d hget
        obtain ⟨r, hr, hout, hcount⟩ := ih (count - 1) (n + 1) (some d) hfuel hshift
        refine ⟨Run.after [Call.receive 0x96F6 [], Call.dispose_data (ptp n).data] r,
          by simp only [hd, if_false, hr]; rfl, ?_, ?_⟩
        · simp only [Run.after, hout]
          rw [hlast (some d) hget.symm]
        · simp only [Run.after, List.countP_append, hcount]
          simp [Call.is_receive]
          omega
    · have hz : count.toNat = 0 := by omega
      exact ⟨⟨[], Outcome.returned dataset⟩,
        by simp only [wait_for_IsEnable_loop, hc, if_false],
        by simp only [hz, if_true], by simp [hz]⟩

/-- The polls up to number `n + k` succeed, the polls before it do not show the
expected `IsEnable` and the poll `n + k` does: the loop breaks there, after `k + 1`
polls, and the function returns that dataset. -/
theorem wait_for_IsEnable_loop_match (parse : Option Buffer → SDIDevicePropInfoDatasetArray)
    (ptp : Nat → ReceiveReply) (code expect : Nat) (d : SDIDevicePropInfoDataset) :
    ∀ (k fuel : Nat) (count : Int) (n : Nat) (dataset : Option SDIDevicePropInfoDataset),
      k < count.toNat → k + 1 ≤ fuel →
      (∀ i, i ≤ k → (ptp (n + i)).ret = 0 ∧ (ptp (n + i)).code = 0x2001) →
      (∀ i, i < k →
        ∀ e, (parse (ptp (n + i)).data).get code = some e → e.IsEnable ≠ expect) →
      (parse (ptp (n + k)).data).get code = some d → d.IsEnable = expect →
      ∃ r, wait_for_IsEnable_loop parse ptp code expect fuel count n dataset = some r ∧
        r.outcome = Outcome.returned (some d) ∧
        r.trace.countP Call.is_receive = k + 1 := by
  intro k
  induction k with
  | zero =>
    intro fuel count n dataset hk hf hok _ hget hd
    obtain ⟨f, rfl⟩ : ∃ f, fuel = f + 1 := ⟨fuel - 1, by omega⟩
    have h0 := hok 0 (Nat.le_refl 0)
    rw [Nat.add_zero] at h0 hget
    rw [wait_for_IsEnable_loop_step parse ptp code expect f count n dataset (by omega)
      h0.1 h0.2]
    simp only [hget, hd, if_true]
    exact ⟨_, rfl, rfl, by simp [Call.is_receive]⟩
  | succ k ih =>
    intro fuel count n dataset hk hf hok hno hget hd
    obtain ⟨f, rfl⟩ : ∃ f, fuel = f + 1 := ⟨fuel - 1, by omega⟩
    have h0 := hok 0 (Nat.zero_le _)
    have hno0 := hno 0 (Nat.succ_pos k)
    rw [Nat.add_zero] at h0 hno0
    have hrec : ∀ ds, ∃ r,
        wait_for_IsEnable_loop parse ptp code expect f (count - 1) (n + 1) ds = some r ∧
        r.outcome = Outcome.returned (some d) ∧
        r.trace.countP Call.is_receive = k + 1 := fun ds =>
      ih f (count - 1) (n + 1) ds (by omega) (by omega)
        (fun i hi => by
          have := hok (i + 1) (by omega)
          rwa [show n + (i + 1) = n + 1 + i by omega] at this)
        (fun i hi => by
          have := hno (i + 1) (by omega)
          rwa [show n + (i + 1) = n + 1 + i by omega] at this)
        (by rwa [show n + (k + 1) = n + 1 + k by omega] at hget) hd
    rw [wait_for_IsEnable_loop_step parse ptp code expect f count n dataset (by omega)
      h0.1 h0.2]
    cases hg : (parse (ptp n).data).get code with
    | none =>
      obtain ⟨r, hr, hout, hcount⟩ := hrec none
      refine ⟨Run.after [Call.receive 0x96F6 [], Call.dispose_data (ptp n).data] r,
        by simp only [hr]; rfl, hout, ?_⟩
      simp only [Run.after, List.countP_append, hcount]
      simp [Call.is_receive]
      omega
    | some e =>
      have he : ¬ e.IsEnable = expect := hno0 e hg
      obtain ⟨r, hr, hout, hcount⟩ := hrec (some e)
      refine ⟨Run.after [Call.receive 0x96F6 [], Call.dispose_data (ptp n).data] r,
        by simp only [he, if_false, hr]; rfl, hout, ?_⟩
      simp only [Run.after, List.countP_append, hcount]
      simp [Call.is_receive]
      omega

/-- C7: for every property code, expected enable value and budget `count`, if every
poll of the budget succeeds and none of the arrays holds the property code, then
`wait_for_IsEnable` returns the null result to its caller, without ending the process,
after exactly `max(count, 0)` polls. -/
theorem wait_for_IsEnable_absent (parse : Option Buffer → SDIDevicePropInfoDatasetArray)
    (ptp : Nat → ReceiveReply) (code expect : Nat) (count : Int) (fuel : Nat)
    (habsent : ∀ i, i < count.toNat → (ptp i).ret = 0 ∧ (ptp i).code = 0x2001 ∧
      (parse (ptp i).data).get code = none)
    (hfuel : count.toNat + 1 ≤ fuel) :
    ∃ r, wait_for_IsEnable parse ptp code expect count fuel = some r ∧
      r.outcome = Outcome.returned none ∧
      (r.trace.countP Call.is_receive : Int) = max count 0 := by
  obtain ⟨r, hr, hout, hcount⟩ :=
    wait_for_IsEnable_loop_exhausted parse ptp code expect fuel count 0 none (by omega)
      (fun i hi => by
        rw [Nat.zero_add]
        obtain ⟨h1, h2, h3⟩ := habsent i hi
        exact ⟨h1, h2, fun d hd => by rw [h3] at hd; exact absurd hd (by simp)⟩)
  refine ⟨r, hr, ?_, by omega⟩
  rw [hout]
  by_cases hz : count.toNat = 0
  · simp only [hz, if_true]
  · simp only [hz, if_false, Nat.zero_add]
    rw [(habsent (count.toNat - 1) (by omega)).2.2]

/-- C7 with a budget of 3 against arrays that hold only the property 6. -/
theorem wait_for_IsEnable_absent_witness :
    ∃ r, wait_for_IsEnable (fun _ => [⟨6, 1, 0⟩]) (fun _ => ⟨0, 0x2001, none, 0⟩) 5 1 3 4
        = some r ∧ r.outcome = Outcome.returned none ∧
      (r.trace.countP Call.is_receive : Int) = max 3 0 :=
  wait_for_IsEnable_absent (fun _ => [⟨6, 1, 0⟩]) (fun _ => ⟨0, 0x2001, none, 0⟩) 5 1 3 4
    (fun _ _ => ⟨rfl, rfl, rfl⟩) (by decide)

/-- C8, refuted as stated: every poll succeeds and shows the property 5 with `IsEnable`
0 while 1 is expected; with a budget of 2 the function returns that dataset, not null. -/
theorem wait_for_IsEnable_returns_unmatched :
    wait_for_IsEnable (fun _ => [⟨5, 0, 0⟩]) (fun _ => ⟨0, 0x2001, none, 0⟩) 5 1 2 3
      = some ⟨[Call.receive 0x96F6 [], Call.dispose_data none,
          Call.receive 0x96F6 [], Call.dispose_data none],
          Outcome.returned (some ⟨5, 0, 0⟩)⟩ ∧
    (⟨5, 0, 0⟩ : SDIDevicePropInfoDataset).IsEnable ≠ 1 := by
  decide

/-- C8, amended: for every sequence of successful polls, `wait_for_IsEnable` stops at the
first poll in which the dataset of the property has `IsEnable` equal to the expected
value and returns that dataset; when no poll of the budget matches, it runs the budget
out and returns what the last poll found for the property: null when the budget is not
positive or the last array lacks the property, and the unmatched dataset otherwise. -/
theorem wait_for_IsEnable_result (parse : Option Buffer → SDIDevicePropInfoDatasetArray)
    (ptp : Nat → ReceiveReply) (code expect : Nat) (count : Int) (fuel : Nat)
    (hok : ∀ i, i < count.toNat → (ptp i).ret = 0 ∧ (ptp i).code = 0x2001)
    (hfuel : count.toNat + 1 ≤ fuel) :
    (∀ (k : Nat) (d : SDIDevicePropInfoDataset), k < count.toNat →
      (∀ i, i < k → ∀ e, (parse (ptp i).data).get code = some e → e.IsEnable ≠ expect) →
      (parse (ptp k).data).get code = some d → d.IsEnable = expect →
      ∃ r, wait_for_IsEnable parse ptp code expect count fuel = some r ∧
        r.outcome = Outcome.returned (some d) ∧
        r.trace.countP Call.is_receive = k + 1) ∧
    ((∀ i, i < count.toNat →
        ∀ e, (parse (ptp i).data).get code = some e → e.IsEnable ≠ expect) →
      ∃ r, wait_for_IsEnable parse ptp code expect count fuel = some r ∧
        r.outcome = Outcome.returned
          (if count.toNat = 0 then none
           else (parse (ptp (count.toNat - 1)).data).get code) ∧
        r.trace.countP Call.is_receive = count.toNat) := by
  constructor
  · intro k d hk hno hget hd
    exact wait_for_IsEnable_loop_match parse ptp code expect d k fuel count 0 none hk
      (by omega)
      (fun i hi => by rw [Nat.zero_add]; exact hok i (by omega))
      (fun i hi => by rw [Nat.zero_add]; exact hno i hi)
      (by rwa [Nat.zero_add]) hd
  · intro hno
    have h := wait_for_IsEnable_loop_exhausted parse ptp code expect fuel count 0 none
      (by omega)
      (fun i hi => by
        rw [Nat.zero_add]
        exact ⟨(hok i hi).1, (hok i hi).2, hno i hi⟩)
    simpa only [Nat.zero_add] using h

/-- The amended C8 with a budget of 4 against a transport whose third poll is the first
to show the property 5 enabled. -/
theorem wait_for_IsEnable_result_witness :
    ∃ r, wait_for_IsEnable
        (fun data => match data with
          | some b => [⟨5, b.handle, 0⟩]
          | none => [])
        (fun n => ⟨0, 0x2001, some ⟨if n = 2 then 1 else 0, []⟩, 0⟩) 5 1 4 5 = some r ∧
      r.outcome = Outcome.returned (some ⟨5, 1, 0⟩) ∧
      r.trace.countP Call.is_receive = 2 + 1 :=
  (wait_for_IsEnable_result
      (fun data => match data with
        | some b => [⟨5, b.handle, 0⟩]
        | none => [])
      (fun n => ⟨0, 0x2001, some ⟨if n = 2 then 1 else 0, []⟩, 0⟩) 5 1 4 5
      (fun _ _ => ⟨rfl, rfl⟩) (by decide)).1 2 ⟨5, 1, 0⟩ (by decide)
    (fun i hi e he => by
      have hcases : i = 0 ∨ i = 1 := by omega
      rcases hcases with h | h <;> subst h <;>
        simp [SDIDevicePropInfoDatasetArray.get] at he <;> subst he <;> decide)
    (by decide) rfl

/-! ## `OpenSession` and the release of received buffers -/

/-- C9: for every session id and every reply of the transport, `OpenSession` performs
one `send` of opcode 0x1002 with the single parameter `session_id`; when the response
status is 0x2001 it returns the return value of the transport to its caller, and
otherwise it does not return but ends the process with the status `EXIT_FAILURE`, which
is not zero. -/
theorem OpenSession_status (reply : SendReply) (session_id : Nat) :
    (OpenSession reply session_id).trace = [Call.send 0x1002 [session_id] none] ∧
    (OpenSession reply session_id).outcome =
      (if reply.code = 0x2001 then Outcome.returned reply.ret
       else Outcome.exited EXIT_FAILURE) ∧
    EXIT_FAILURE ≠ 0 := by
  have hexit : ¬ reply.code = 0x2001 →
      OpenSession reply session_id
        = ⟨[Call.send 0x1002 [session_id] none], Outcome.exited EXIT_FAILURE⟩ := by
    intro h
    have h2 : ¬ (0x2001 = reply.code) := fun e => h e.symm
    simp only [OpenSession, assert_socc, h2, if_false]
  have hback : reply.code = 0x2001 →
      OpenSession reply session_id
        = ⟨[Call.send 0x1002 [session_id] none], Outcome.returned reply.ret⟩ := by
    intro h
    simp only [OpenSession, assert_socc, h, if_true]
  refine ⟨?_, ?_, by decide⟩
  · by_cases h : reply.code = 0x2001
    · rw [hback h]
    · rw [hexit h]
  · by_cases h : reply.code = 0x2001
    · rw [hback h, if_pos h]
    · rw [hexit h, if_neg h]

/-- C14, the code at the failing input: for `msec = 2148` the `int` product
`msec * 1000 * 1000` exceeds `2^31 - 1` and wraps to a negative number, so the request
handed to `nanosleep` is `tv_sec = 2`, `tv_nsec = -146967296`: `tv_nsec` is negative and
the request does not amount to 2148 milliseconds. -/
theorem milisleep_overflow :
    milisleep 2148 = ⟨2, -146967296⟩ ∧
    ¬ (0 ≤ (milisleep 2148).tv_nsec) ∧
    (milisleep 2148).tv_sec * 1000000000 + (milisleep 2148).tv_nsec ≠ 2148 * 1000000 := by
  decide

/-- Below the overflow, for `msec ≤ 2147`, the request is exactly `msec` milliseconds. -/
theorem milisleep_exact_below_overflow (msec : Nat) (h : msec ≤ 2147) :
    0 ≤ (milisleep msec).tv_nsec ∧ (milisleep msec).tv_nsec < 1000000000 ∧
    (milisleep msec).tv_sec * 1000000000 + (milisleep msec).tv_nsec
      = (msec : Int) * 1000000 := by
  have hm : msec % 65536 = msec := Nat.mod_eq_of_lt (by omega)
  have h1 : wrap_int32 ((msec : Int) * 1000) = (msec : Int) * 1000 := by
    unfold wrap_int32; omega
  have h2 : wrap_int32 ((msec : Int) * 1000 * 1000) = (msec : Int) * 1000 * 1000 := by
    unfold wrap_int32; omega
  have h3 : Int.tmod ((msec : Int) * 1000 * 1000) 1000000000
      = ((msec : Int) * 1000 * 1000) % 1000000000 :=
    Int.tmod_eq_emod (by omega) (by decide)
  have h4 : Int.tdiv (msec : Int) 1000 = (msec : Int) / 1000 :=
    Int.tdiv_eq_ediv (Int.ofNat_nonneg msec) (by decide)
  simp only [milisleep, hm, h1, h2, h3, h4]
  omega

/-- The exact request at `msec = 1500`: one second and 500000000 nanoseconds. -/
theorem milisleep_exact_below_overflow_witness :
    0 ≤ (milisleep 1500).tv_nsec ∧ (milisleep 1500).tv_nsec < 1000000000 ∧
    (milisleep 1500).tv_sec * 1000000000 + (milisleep 1500).tv_nsec
      = ((1500 : Nat) : Int) * 1000000 :=
  milisleep_exact_below_overflow 1500 (by decide)

/-! ## The constructor with a length -/

/-- While the reads stay inside the memory at `c`, the loop of the constructor with a
length is the loop of the constructor from a C string. -/
theorem fill_loop_len_eq (c : List Nat) :
    ∀ (n i : Nat) (bytes : List Nat), i + n ≤ c.length →
      fill_loop_len c n i bytes = fill_loop c n i bytes := by
  intro n
  induction n with
  | zero => intro i bytes _; rfl
  | succ n ih =>
    intro i bytes h
    have hi : i < c.length := by omega
    have hread : c.get? i = some (c_at c i) := by
      rw [List.get?_eq_getElem?, List.getElem?_eq_getElem hi, c_at,
        List.getD_eq_getElem c 0 hi]
    simp only [fill_loop_len, fill_loop, hread]
    cases h1 : store bytes (1 + i * 2) (c_at c i) with
    | none => rfl
    | some b1 =>
      simp only []
      cases h2 : store b1 (1 + i * 2 + 1) 0 with
      | none => rfl
      | some b2 =>
        simp only []
        exact ih (i + 1) b2 (by omega)

/-- What the constructor with a length builds when a byte follows the first `length`
bytes at `c`: the count byte, the units of those bytes, and a last unit made of the byte
that follows them. -/
theorem ctor_len_eq (garbage : Nat → Nat) (c : List Nat) (length : Nat)
    (hmem : length < c.length) (h : length ≤ 32766) :
    socc_examples_ptpstring.ctor_len garbage c length =
      some ⟨(length % 256) :: utf16le_units (c.take (length + 1)),
        1 + (length + 1) * 2⟩ := by
  have hsz : (1 + (length + 1) * 2) % 65536 = 1 + (length + 1) * 2 :=
    Nat.mod_eq_of_lt (by omega)
  have hnew : (operator_new garbage (1 + (length + 1) * 2)).length
      = 1 + (length + 1) * 2 := by
    simp [operator_new]
  have h0 : 0 < (operator_new garbage (1 + (length + 1) * 2)).length := by omega
  obtain ⟨b, hb, hbl, hlo, _, hmid⟩ := fill_loop_spec c (length + 1) 0
    ((operator_new garbage (1 + (length + 1) * 2)).set 0 (length % 256))
    (by rw [List.length_set]; omega)
  have hread : ∀ k, k ≤ length → (c.take (length + 1))[k]? = some (c_at c k) := by
    intro k hk
    have hkc : k < c.length := by omega
    rw [List.getElem?_take_of_lt (by omega), List.getElem?_eq_getElem hkc, c_at,
      List.getD_eq_getElem c 0 hkc]
  have hbe : b = (length % 256) :: utf16le_units (c.take (length + 1)) := by
    apply List.ext_getElem?
    intro j
    rcases Nat.eq_zero_or_pos j with hj | hj
    · subst hj
      rw [hlo 0 (by omega), List.getElem?_set_self h0, List.getElem?_cons_zero]
    · obtain ⟨m, rfl⟩ : ∃ m, j = m + 1 := ⟨j - 1, by omega⟩
      rw [List.getElem?_cons_succ]
      by_cases hm : m < 2 * (length + 1)
      · rcases Nat.even_or_odd' m with ⟨k, hk | hk⟩
        · subst hk
          have := (hmid k (by omega) (by omega)).1
          rw [show 2 * k + 1 = 1 + 2 * k by omega, this, utf16le_units_even,
            hread k (by omega)]
          rfl
        · subst hk
          have := (hmid k (by omega) (by omega)).2
          rw [show 2 * k + 1 + 1 = 2 + 2 * k by omega, this, utf16le_units_odd,
            hread k (by omega)]
          rfl
      · rw [List.getElem?_eq_none (by rw [hbl, List.length_set]; omega),
          List.getElem?_eq_none (by
            rw [utf16le_units_length, List.length_take]
            omega)]
  have hle : length ≤ c.length := by omega
  simp only [socc_examples_ptpstring.ctor_len, hle, if_true, hsz, store_eq_some _ h0,
    fill_loop_len_eq c (length + 1) 0 _ (by omega), hb, hbe]

/-- C13, the code at the failing input: the string "AB" (length 2) lies in memory and
is followed by the byte 'X'. The constructor with a length reads `c[2]` for the last
unit, so the encoding is `[2,'A',0,'B',0,'X',0]`: the last unit is 'X', not the
terminating zero, and that is the payload `SDIO_SetExtDevicePropValue_str` sends. With
a zero byte after the string the last unit is zero. -/
theorem ctor_len_terminator_from_memory :
    socc_examples_ptpstring.ctor_len (fun _ => 0) [65, 66, 88] 2
      = some ⟨[2, 65, 0, 66, 0, 88, 0], 7⟩ ∧
    socc_examples_ptpstring.ctor_len (fun _ => 0) [65, 66, 0] 2
      = some ⟨[2, 65, 0, 66, 0, 0, 0], 7⟩ ∧
    SDIO_SetExtDevicePropValue_str (fun _ => 0) ⟨0, 0x2001⟩ 0x5005 [65, 66, 88] 2
      = ⟨[Call.send 0x96FA [0x5005] (some [2, 65, 0, 66, 0, 88, 0])],
          Outcome.returned 0⟩ := by
  decide

/-- For every memory in which a byte follows the first `length ≤ 254` bytes, the count
byte and the first `length` units are those of the first `length` bytes, and the low
byte of the last unit is the byte that follows them. -/
theorem ctor_len_last_unit (garbage : Nat → Nat) (c : List Nat) (length : Nat)
    (hmem : length < c.length) (h : length ≤ 254) :
    ∃ p, socc_examples_ptpstring.ctor_len garbage c length = some p ∧
      p.bytes.take (1 + 2 * length)
        = length :: utf16le_units (c.take length) ∧
      p.bytes[1 + 2 * length]? = some (c_at c length % 256) ∧
      p.bytes[2 + 2 * length]? = some 0 := by
  have hread : (c.take (length + 1))[length]? = some (c_at c length) := by
    rw [List.getElem?_take_of_lt (by omega), List.getElem?_eq_getElem hmem, c_at,
      List.getD_eq_getElem c 0 hmem]
  refine ⟨_, ctor_len_eq garbage c length hmem (by omega), ?_, ?_, ?_⟩
  · have hsplit : c.take (length + 1) = c.take length ++ [c_at c length] := by
      rw [List.take_succ, List.getElem?_eq_getElem hmem, c_at,
        List.getD_eq_getElem c 0 hmem]
      rfl
    have happ : ∀ (l1 l2 : List Nat),
        utf16le_units (l1 ++ l2) = utf16le_units l1 ++ utf16le_units l2 := by
      intro l1 l2
      induction l1 with
      | nil => rfl
      | cons a l ih =>
        show a % 256 :: 0 :: utf16le_units (l ++ l2) = _
        rw [ih]; rfl
    simp only [hsplit, happ]
    rw [show 1 + 2 * length = (2 * length) + 1 by omega, List.take_succ_cons,
      Nat.mod_eq_of_lt (by omega : length < 256)]
    congr 1
    rw [List.take_append_of_le_length (by
      rw [utf16le_units_length, List.length_take]; omega)]
    exact List.take_of_length_le (by
      rw [utf16le_units_length, List.length_take]; omega)
  · simp only []
    rw [show 1 + 2 * length = 2 * length + 1 by omega, List.getElem?_cons_succ,
      utf16le_units_even, hread]
    rfl
  · simp only []
    rw [show 2 + 2 * length = (2 * length + 1) + 1 by omega, List.getElem?_cons_succ,
      utf16le_units_odd, hread]
    rfl

/-- The last unit at the memory "AB" followed by 'X'. -/
theorem ctor_len_last_unit_witness :
    ∃ p, socc_examples_ptpstring.ctor_len (fun _ => 0) [65, 66, 88] 2 = some p ∧
      p.bytes.take (1 + 2 * 2) = 2 :: utf16le_units ([65, 66, 88].take 2) ∧
      p.bytes[1 + 2 * 2]? = some (c_at [65, 66, 88] 2 % 256) ∧
      p.bytes[2 + 2 * 2]? = some 0 :=
  ctor_len_last_unit (fun _ => 0) [65, 66, 88] 2 (by decide) (by decide)

/-! ## `get_CurrentValue` -/

/-- One pass through the body of the loop of `get_CurrentValue` when the poll reports
the status 0x2001. -/
theorem get_CurrentValue_loop_step (parse : Option Buffer → SDIDevicePropInfoDatasetArray)
    (ptp : Nat → ReceiveReply) (code : Nat) (f : Nat) (count : Int) (n : Nat)
    (hc : count > 0) (hcode : (ptp n).code = 0x2001) :
    get_CurrentValue_loop parse ptp code (f + 1) count n =
      match (parse (ptp n).data).get code with
      | none =>
        (get_CurrentValue_loop parse ptp code f (count - 1) (n + 1)).map
          (Run.after [Call.receive 0x96F6 [], Call.dispose_data (ptp n).data])
      | some d =>
        some ⟨[Call.receive 0x96F6 [], Call.dispose_data (ptp n).data],
          Outcome.returned (some d.CurrentValue)⟩ := by
  simp only [get_CurrentValue_loop, hc, if_true,
    SDIO_GetAllExtDevicePropInfo_ok parse (ptp n) hcode]

/-- With the status 0x2001 on every poll of the budget the loop of `get_CurrentValue`
returns: the value of the first poll that holds the property, after that many polls, or
null after the whole budget when no poll holds it. -/
theorem get_CurrentValue_loop_result (parse : Option Buffer → SDIDevicePropInfoDatasetArray)
    (ptp : Nat → ReceiveReply) (code : Nat) :
    ∀ (fuel : Nat) (count : Int) (n : Nat), count.toNat < fuel →
      (∀ i, i < count.toNat → (ptp (n + i)).code = 0x2001) →
      ∃ r, get_CurrentValue_loop parse ptp code fuel count n = some r ∧
        (∀ (k : Nat) (d : SDIDevicePropInfoDataset), k < count.toNat →
          (∀ i, i < k → (parse (ptp (n + i)).data).get code = none) →
          (parse (ptp (n + k)).data).get code = some d →
          r.outcome = Outcome.returned (some d.CurrentValue) ∧
          r.trace.countP Call.is_receive = k + 1) ∧
        ((∀ i, i < count.toNat → (parse (ptp (n + i)).data).get code = none) →
          r.outcome = Outcome.returned none ∧
          r.trace.countP Call.is_receive = count.toNat) ∧
        (r.outcome = Outcome.returned none →
          ∀ i, i < count.toNat → (parse (ptp (n + i)).data).get code = none) := by
  intro fuel
  induction fuel with
  | zero => intro count n h; omega
  | succ f ih =>
    intro count n hf hstatus
    by_cases hc : count > 0
    · have hpos : 0 < count.toNat := by omega
      have hbudget : (count - 1).toNat + 1 = count.toNat := by omega
      have hcode : (ptp n).code = 0x2001 := by
        have := hstatus 0 hpos
        rwa [Nat.add_zero] at this
      obtain ⟨r, hr, hA, hB, hC⟩ := ih (count - 1) (n + 1) (by omega)
        (fun i hi => by
          have := hstatus (i + 1) (by omega)
          rwa [show n + (i + 1) = n + 1 + i by omega] at this)
      rw [get_CurrentValue_loop_step parse ptp code f count n hc hcode]
      cases hget : (parse (ptp n).data).get code with
      | none =>
        refine ⟨Run.after [Call.receive 0x96F6 [], Call.dispose_data (ptp n).data] r,
          by simp only [hr]; rfl, ?_, ?_, ?_⟩
        · intro k d hk hpre hgetk
          cases k with
          | zero =>
            rw [Nat.add_zero, hget] at hgetk
            exact absurd hgetk (by simp)
          | succ k =>
            obtain ⟨hout, hcount⟩ := hA k d (by omega)
              (fun i hi => by
                have := hpre (i + 1) (by omega)
                rwa [show n + (i + 1) = n + 1 + i by omega] at this)
              (by rwa [show n + (k + 1) = n + 1 + k by omega] at hgetk)
            refine ⟨hout, ?_⟩
            simp only [Run.after, List.countP_append, hcount]
            simp [Call.is_receive]
            omega
        · intro hall
          obtain ⟨hout, hcount⟩ := hB (fun i hi => by
            have := hall (i + 1) (by omega)
            rwa [show n + (i + 1) = n + 1 + i by omega] at this)
          refine ⟨hout, ?_⟩
          simp only [Run.after, List.countP_append, hcount]
          simp [Call.is_receive]
          omega
        · intro hout i hi
          cases i with
          | zero => rwa [Nat.add_zero]
          | succ i =>
            have := hC hout i (by omega)
            rwa [show n + 1 + i = n + (i + 1) by omega] at this
      | some d0 =>
        refine ⟨_, rfl, ?_, ?_, ?_⟩
        · intro k d hk hpre hgetk
          cases k with
          | zero =>
            rw [Nat.add_zero, hget] at hgetk
            cases hgetk
            exact ⟨rfl, by simp [Call.is_receive]⟩
          | succ k =>
            have := hpre 0 (Nat.succ_pos k)
            rw [Nat.add_zero, hget] at this
            exact absurd this (by simp)
        · intro hall
          have := hall 0 hpos
          rw [Nat.add_zero, hget] at this
          exact absurd this (by simp)
        · intro hout
          simp at hout
    · have hz : count.toNat = 0 := by omega
      refine ⟨⟨[], Outcome.returned none⟩,
        by simp only [get_CurrentValue_loop, hc, if_false], ?_, ?_, ?_⟩
      · intro k d hk; omega
      · intro _; exact ⟨rfl, by simp [hz]⟩
      · intro _ i hi; omega

/-- C12: for every property code, budget `count` and sequence of polls with the status
0x2001, `get_CurrentValue` returns the `CurrentValue` of the dataset that `get(code)`
finds (the first with that code) in the first poll of the budget whose array holds the
code, and that poll is the last one issued; it returns null if and only if no poll of
the budget holds the code, and then the whole budget has been used. -/
theorem get_CurrentValue_result (parse : Option Buffer → SDIDevicePropInfoDatasetArray)
    (ptp : Nat → ReceiveReply) (code : Nat) (count : Int) (fuel : Nat)
    (hstatus : ∀ i, i < count.toNat → (ptp i).code = 0x2001)
    (hfuel : count.toNat + 1 ≤ fuel) :
    ∃ r, get_CurrentValue parse ptp code count fuel = some r ∧
      (∀ (k : Nat) (d : SDIDevicePropInfoDataset), k < count.toNat →
        (∀ i, i < k → (parse (ptp i).data).get code = none) →
        (parse (ptp k).data).get code = some d →
        r.outcome = Outcome.returned (some d.CurrentValue) ∧
        r.trace.countP Call.is_receive = k + 1) ∧
      (r.outcome = Outcome.returned none ↔
        ∀ i, i < count.toNat → (parse (ptp i).data).get code = none) ∧
      ((∀ i, i < count.toNat → (parse (ptp i).data).get code = none) →
        r.trace.countP Call.is_receive = count.toNat) := by
  obtain ⟨r, hr, hA, hB, hC⟩ :=
    get_CurrentValue_loop_result parse ptp code fuel count 0 (by omega)
      (fun i hi => by rw [Nat.zero_add]; exact hstatus i hi)
  simp only [Nat.zero_add] at hA hB hC
  exact ⟨r, hr, hA, ⟨hC, fun h => (hB h).1⟩, fun h => (hB h).2⟩

/-- C12 with a budget of 4 against a transport whose third poll is the first to hold the
property 5, with the value 42 in its first dataset of that code. -/
theorem get_CurrentValue_result_witness :
    ∃ r, get_CurrentValue
        (fun data => match data with
          | some b => if b.handle = 2 then [⟨6, 0, 7⟩, ⟨5, 0, 42⟩, ⟨5, 0, 43⟩] else [⟨6, 0, 7⟩]
          | none => [])
        (fun n => ⟨0, 0x2001, some ⟨n, []⟩, 0⟩) 5 4 5 = some r ∧
      r.outcome = Outcome.returned (some 42) ∧
      r.trace.countP Call.is_receive = 2 + 1 :=
  (get_CurrentValue_result
      (fun data => match data with
        | some b => if b.handle = 2 then [⟨6, 0, 7⟩, ⟨5, 0, 42⟩, ⟨5, 0, 43⟩] else [⟨6, 0, 7⟩]
        | none => [])
      (fun n => ⟨0, 0x2001, some ⟨n, []⟩, 0⟩) 5 4 5
      (fun _ _ => rfl) (by decide)).elim
    fun r hr => ⟨r, hr.1,
      hr.2.1 2 ⟨5, 0, 42⟩ (by decide)
        (fun i hi => by
          have hcases : i = 0 ∨ i = 1 := by omega
          rcases hcases with h | h <;> subst h <;> rfl)
        rfl⟩

/-! ## `wait_for_InitiatorVersion` -/

/-- The command `SDIO_GetExtDeviceInfo` that reads the version out, on a reply with the
status 0x2001 that echoes the version `v`. -/
theorem SDIO_GetExtDeviceInfo_echo (reply : ReceiveReply) (version v : Nat)
    (hcode : reply.code = 0x2001) (hecho : reply.echoed_version = some v) :
    SDIO_GetExtDeviceInfo reply version true
      = ⟨[Call.receive 0x96FD [version % 65536], Call.dispose_data reply.data],
          Outcome.returned (reply.ret, some v)⟩ := by
  cases hdata : reply.data with
  | none => simp [ReceiveReply.echoed_version, hdata] at hecho
  | some b =>
    have hread : read_u16 b.bytes = some v := by
      simpa [ReceiveReply.echoed_version, hdata] using hecho
    simp [SDIO_GetExtDeviceInfo, assert_socc, hcode, hdata, hread]

/-- One pass through the body of the loop of `wait_for_InitiatorVersion` on a reply with
a non-negative result and the status 0x2001 that echoes the version `v`. -/
theorem wait_for_InitiatorVersion_loop_step (ptp : Nat → ReceiveReply) (expect : Nat)
    (f : Nat) (retry_count : Int) (n actual v : Nat)
    (hc : retry_count > 0) (hret : 0 ≤ (ptp n).ret) (hcode : (ptp n).code = 0x2001)
    (hecho : (ptp n).echoed_version = some v) :
    wait_for_InitiatorVersion_loop ptp expect (f + 1) retry_count n actual =
      if expect = v then
        some ⟨[Call.receive 0x96FD [expect % 65536], Call.dispose_data (ptp n).data],
          Outcome.returned 0⟩
      else
        (wait_for_InitiatorVersion_loop ptp expect f (retry_count - 1) (n + 1) v).map
          (Run.after [Call.receive 0x96FD [expect % 65536],
            Call.dispose_data (ptp n).data]) := by
  have hnn : ¬ (ptp n).ret < 0 := Int.not_lt.mpr hret
  simp only [wait_for_InitiatorVersion_loop, hc, if_true,
    SDIO_GetExtDeviceInfo_echo (ptp n) expect v hcode hecho, hnn, if_false]
  by_cases he : expect = v
  · simp [he, wait_for_InitiatorVersion_finish, assert_socc, Run.after]
  · simp only [he, if_false]

/-- The replies up to number `n + k` are non-negative with the status 0x2001, the ones
before it echo other versions and the reply `n + k` echoes `expect`: the loop breaks
there, after `k + 1` commands, and the function returns 0. -/
theorem wait_for_InitiatorVersion_loop_match (ptp : Nat → ReceiveReply) (expect : Nat) :
    ∀ (k fuel : Nat) (retry_count : Int) (n actual : Nat),
      k < retry_count.toNat → k + 1 ≤ fuel →
      (∀ i, i ≤ k → 0 ≤ (ptp (n + i)).ret ∧ (ptp (n + i)).code = 0x2001 ∧
        (ptp (n + i)).echoed_version.isSome = true) →
      (∀ i, i < k → (ptp (n + i)).echoed_version ≠ some expect) →
      (ptp (n + k)).echoed_version = some expect →
      ∃ r, wait_for_InitiatorVersion_loop ptp expect fuel retry_count n actual = some r ∧
        r.outcome = Outcome.returned 0 ∧
        r.trace.countP Call.is_receive = k + 1 := by
  intro k
  induction k with
  | zero =>
    intro fuel retry_count n actual hk hf hok _ hecho
    obtain ⟨f, rfl⟩ : ∃ f, fuel = f + 1 := ⟨fuel - 1, by omega⟩
    have h0 := hok 0 (Nat.le_refl 0)
    rw [Nat.add_zero] at h0 hecho
    rw [wait_for_InitiatorVersion_loop_step ptp expect f retry_count n actual expect
      (by omega) h0.1 h0.2.1 hecho]
    simp only [if_true]
    exact ⟨_, rfl, rfl, by simp [Call.is_receive]⟩
  | succ k ih =>
    intro fuel retry_count n actual hk hf hok hno hecho
    obtain ⟨f, rfl⟩ : ∃ f, fuel = f + 1 := ⟨fuel - 1, by omega⟩
    have hc : retry_count > 0 := by omega
    have h0 := hok 0 (Nat.zero_le _)
    have hno0 := hno 0 (Nat.succ_pos k)
    rw [Nat.add_zero] at h0 hno0
    obtain ⟨v, hv⟩ := Option.isSome_iff_exists.mp h0.2.2
    have hne : ¬ expect = v := fun e => hno0 (by rw [hv, e])
    have hrec := ih f (retry_count - 1) (n + 1) v (by omega) (by omega)
      (fun i hi => by
        have := hok (i + 1) (by omega)
        rwa [show n + (i + 1) = n + 1 + i by omega] at this)
      (fun i hi => by
        have := hno (i + 1) (by omega)
        rwa [show n + (i + 1) = n + 1 + i by omega] at this)
      (by rwa [show n + (k + 1) = n + 1 + k by omega] at hecho)
    obtain ⟨r, hr, hout, hcount⟩ := hrec
    rw [wait_for_InitiatorVersion_loop_step ptp expect f retry_count n actual v hc
      h0.1 h0.2.1 hv]
    simp only [hne, if_false]
    refine ⟨Run.after [Call.receive 0x96FD [expect % 65536],
      Call.dispose_data (ptp n).data] r, by simp only [hr]; rfl, hout, ?_⟩
    simp only [Run.after, List.countP_append, hcount]
    simp [Call.is_receive]
    omega

/-- The replies of the whole budget are non-negative with the status 0x2001 and echo
versions other than `expect` (and `actual` differs from `expect` if the budget is not
positive): the loop runs the budget out and the final assertion ends the process. -/
theorem wait_for_InitiatorVersion_loop_exhausted (ptp : Nat → ReceiveReply) (expect : Nat) :
    ∀ (fuel : Nat) (retry_count : Int) (n actual : Nat),
      retry_count.toNat < fuel → (retry_count.toNat = 0 → actual ≠ expect) →
      (∀ i, i < retry_count.toNat → 0 ≤ (ptp (n + i)).ret ∧ (ptp (n + i)).code = 0x2001 ∧
        (ptp (n + i)).echoed_version.isSome = true ∧
        (ptp (n + i)).echoed_version ≠ some expect) →
      ∃ r, wait_for_InitiatorVersion_loop ptp expect fuel retry_count n actual = some r ∧
        r.outcome = Outcome.exited EXIT_FAILURE ∧
        r.trace.countP Call.is_receive = retry_count.toNat := by
  intro fuel
  induction fuel with
  | zero => intro retry_count n actual h; omega
  | succ f ih =>
    intro retry_count n actual hf hact hpolls
    by_cases hc : retry_count > 0
    · have hpos : 0 < retry_count.toNat := by omega
      have hbudget : (retry_count - 1).toNat + 1 = retry_count.toNat := by omega
      have hfuel : (retry_count - 1).toNat < f := by omega
      have h0 := hpolls 0 hpos
      rw [Nat.add_zero] at h0
      obtain ⟨v, hv⟩ := Option.isSome_iff_exists.mp h0.2.2.1
      have hne : ¬ expect = v := fun e => h0.2.2.2 (by rw [hv, e])
      have hrec := ih (retry_count - 1) (n + 1) v hfuel (fun _ e => hne e.symm)
        (fun i hi => by
          have := hpolls (i + 1) (by rw [← hbudget]; exact Nat.succ_lt_succ hi)
          rwa [show n + (i + 1) = n + 1 + i by omega] at this)
      obtain ⟨r, hr, hout, hcount⟩ := hrec
      rw [wait_for_InitiatorVersion_loop_step ptp expect f retry_count n actual v hc
        h0.1 h0.2.1 hv]
      simp only [hne, if_false]
      refine ⟨Run.after [Call.receive 0x96FD [expect % 65536],
        Call.dispose_data (ptp n).data] r, by simp only [hr]; rfl, hout, ?_⟩
      simp only [Run.after, List.countP_append, hcount]
      simp [Call.is_receive]
      rw [← hbudget]; exact Nat.add_comm _ _
    · have hz : retry_count.toNat = 0 := by omega
      have hne : ¬ expect = actual := fun e => hact hz e.symm
      refine ⟨⟨[], Outcome.exited EXIT_FAILURE⟩, ?_, rfl, by simp [hz]⟩
      simp only [wait_for_InitiatorVersion_loop, hc, if_false,
        wait_for_InitiatorVersion_finish, assert_socc, hne]

/-- C11, the code at the failing input: with `retry_count = 0` the loop body never runs,
no command is issued, and the final assertion compares `expect` with the local `actual`,
which was never assigned. When the variable happens to hold the expected version 0xC8
the function returns 0 although no attempt echoed it; when it holds anything else (here
0xC9) the process ends. -/
theorem wait_for_InitiatorVersion_zero_budget (ptp : Nat → ReceiveReply) :
    wait_for_InitiatorVersion 0xC8 ptp 0xC8 0 1 = some ⟨[], Outcome.returned 0⟩ ∧
    wait_for_InitiatorVersion 0xC9 ptp 0xC8 0 1
      = some ⟨[], Outcome.exited EXIT_FAILURE⟩ := by
  constructor <;> rfl

/-- With a positive budget the function does what C11 says, whatever the local `actual`
held on entry: against replies that are non-negative, carry the status 0x2001 and echo
a version, it stops at the first attempt that echoes `expect` and returns 0 after that
many commands; when no attempt of the budget echoes it, it issues the whole budget and
ends the process with `EXIT_FAILURE`. -/
theorem wait_for_InitiatorVersion_positive_budget (stale : Nat) (ptp : Nat → ReceiveReply)
    (expect : Nat) (retry_count : Int) (fuel : Nat)
    (hpos : 0 < retry_count)
    (hok : ∀ i, i < retry_count.toNat → 0 ≤ (ptp i).ret ∧ (ptp i).code = 0x2001 ∧
      (ptp i).echoed_version.isSome = true)
    (hfuel : retry_count.toNat + 1 ≤ fuel) :
    (∀ k, k < retry_count.toNat →
      (∀ i, i < k → (ptp i).echoed_version ≠ some (expect % 65536)) →
      (ptp k).echoed_version = some (expect % 65536) →
      ∃ r, wait_for_InitiatorVersion stale ptp expect retry_count fuel = some r ∧
        r.outcome = Outcome.returned 0 ∧
        r.trace.countP Call.is_receive = k + 1) ∧
    ((∀ i, i < retry_count.toNat → (ptp i).echoed_version ≠ some (expect % 65536)) →
      ∃ r, wait_for_InitiatorVersion stale ptp expect retry_count fuel = some r ∧
        r.outcome = Outcome.exited EXIT_FAILURE ∧
        r.trace.countP Call.is_receive = retry_count.toNat) := by
  have hnz : ¬ retry_count.toNat = 0 := by omega
  constructor
  · intro k hk hno hecho
    exact wait_for_InitiatorVersion_loop_match ptp (expect % 65536) k fuel retry_count 0
      (stale % 65536) hk (by omega)
      (fun i hi => by rw [Nat.zero_add]; exact hok i (by omega))
      (fun i hi => by rw [Nat.zero_add]; exact hno i hi)
      (by rwa [Nat.zero_add])
  · intro hno
    exact wait_for_InitiatorVersion_loop_exhausted ptp (expect % 65536) fuel retry_count 0
      (stale % 65536) (by omega) (fun h => absurd h hnz)
      (fun i hi => by
        rw [Nat.zero_add]
        exact ⟨(hok i hi).1, (hok i hi).2.1, (hok i hi).2.2, hno i hi⟩)

/-- The positive budget 3 against a device that echoes 0xC8 from the second attempt on:
the function returns 0 after two commands. -/
theorem wait_for_InitiatorVersion_positive_budget_witness :
    ∃ r, wait_for_InitiatorVersion 0xC8
        (fun n => ⟨0, 0x2001, some ⟨n, [if n = 0 then 0x64 else 0xC8, 0]⟩, 2⟩) 0xC8 3 4
          = some r ∧
      r.outcome = Outcome.returned 0 ∧ r.trace.countP Call.is_receive = 1 + 1 :=
  (wait_for_InitiatorVersion_positive_budget 0xC8
      (fun n => ⟨0, 0x2001, some ⟨n, [if n = 0 then 0x64 else 0xC8, 0]⟩, 2⟩) 0xC8 3 4
      (by decide) (fun _ _ => ⟨Int.le_refl 0, rfl, rfl⟩) (by decide)).1 1 (by decide)
    (fun i hi => by
      have h0 : i = 0 := by omega
      subst h0
      decide)
    (by decide)

end Socc
